import Mathlib

/-!
Verification development for the pkg-config descriptor subsystem of
bfg9000 (`bfg9000/builtins/pkg_config.py`).

The Python source is shallowly embedded: classes become structures,
mutating methods become state-passing functions, exceptions become
`Except`.  Version-specifier strings are represented as lists of
`(operator, version)` pairs; Python's `SpecifierSet` (a set) is a
duplicate-free list with intersection modelled as deduplicating union.
Helpers that live outside the provided sources (`iterutils.uniques`,
`versioning.simplify_specifiers`, the toolchain collaborators used by
`write`) are modelled from the spec and marked as such.
-/

deriving instance DecidableEq for Except

namespace PkgConfig

/-- Auxiliary for `uniques`: drop elements already in `seen`, keeping
the first occurrence of each remaining element. -/
def uniquesAux {α : Type} [DecidableEq α] (seen : List α) : List α → List α
  | [] => []
  | x :: xs => if x ∈ seen then uniquesAux seen xs else x :: uniquesAux (x :: seen) xs

/-- Modelled from the spec: `iterutils.uniques` (not under the provided
sources) deduplicates a sequence preserving first-seen order. -/
def uniques {α : Type} [DecidableEq α] (l : List α) : List α := uniquesAux [] l

/-- A single version comparison `(operator, version)`. -/
abbrev Specifier := String × String

/-- A conjunction of version comparisons (Python `SpecifierSet`).  A
`SpecifierSet` is a set in Python; its intersection `&` unions the
underlying comparison sets. -/
abbrev SpecifierSet := List Specifier

/-- `SpecifierSet.__and__`: union of the comparison sets (duplicates
across equal operator+version collapse). -/
def specAnd (a b : SpecifierSet) : SpecifierSet := uniques (a ++ b)

/-- Insert `x` after every element strictly smaller under `lt`
(auxiliary for the stable sort). -/
def insertBy {α : Type} (lt : α → α → Bool) (x : α) : List α → List α
  | [] => [x]
  | y :: ys => if lt y x then y :: insertBy lt x ys else x :: y :: ys

/-- Stable sort (Python `sorted`): elements with equal keys keep their
original relative order. -/
def sortBy {α : Type} (lt : α → α → Bool) : List α → List α
  | [] => []
  | x :: xs => insertBy lt x (sortBy lt xs)

/-- Lexicographic comparison on character lists by code point. -/
def charListLt : List Char → List Char → Bool
  | [], [] => false
  | [], _ :: _ => true
  | _ :: _, [] => false
  | a :: as, b :: bs =>
    if a.toNat < b.toNat then true
    else if b.toNat < a.toNat then false
    else charListLt as bs

/-- Python string comparison (lexicographic by code point). -/
def strLt (a b : String) : Bool := charListLt a.data b.data

/-- Rendering of one comparison (Python `str(Specifier)`). -/
def specStr (s : Specifier) : String := s.1 ++ s.2

/-- Rendering of a `SpecifierSet` (comma-joined sorted comparisons). -/
def specSetStr (v : SpecifierSet) : String :=
  String.intercalate "," (sortBy strLt (v.map specStr))

/-- Error taxonomy (§7 of the spec) as raised by the Python code:
`constraintError` is the `ValueError` from `Requirement.split`,
`unsupportedType` the `TypeError` from `_filter_packages`, `keyError` a
`KeyError` from a `result` dict lookup in `_process_inputs`, and
`duplicateName` the `ValueError` from `finalize_pkg_config` (carrying
its exact message). -/
inductive PkgError where
  | constraintError (version : SpecifierSet) (name : String)
  | unsupportedType (tag : String)
  | keyError (key : String)
  | duplicateName (msg : String)
deriving DecidableEq

/-- The message of the `ValueError` raised by `Requirement.split`. -/
def PkgError.msg : PkgError → String
  | .constraintError v n =>
      "multiple specifiers (" ++ specSetStr v ++
        ") used in pkg-config requirement for '" ++ n ++ "'"
  | .unsupportedType t => "unsupported package type: " ++ t
  | .keyError k => k
  | .duplicateName m => m

/-- `Requirement`: a package name plus one version constraint
(`version=None` becomes the empty `SpecifierSet`). -/
structure Requirement where
  name : String
  version : SpecifierSet
deriving DecidableEq

/-- `Requirement.merge`: replaces the constraint with the intersection;
the argument's name is not consulted. -/
def Requirement.merge (r req : Requirement) : Requirement :=
  { r with version := specAnd r.version req.version }

/-- `SimpleRequirement`: a name plus at most one comparison. -/
structure SimpleRequirement where
  name : String
  version : Option Specifier
deriving DecidableEq

/-- `SimpleRequirement._safe_str`: bare name when unconstrained,
otherwise a single comparison with `==` rendered as `=`. -/
def SimpleRequirement.safeStr (r : SimpleRequirement) : String :=
  match r.version with
  | none => r.name
  | some (op, ver) =>
      r.name ++ " " ++ (if op = "==" then "=" else op) ++ " " ++ ver

/-- Modelled from the spec: `versioning.simplify_specifiers` (not under
the provided sources) reduces a constraint to a minimal equivalent list
of comparisons in an insertion-independent deterministic order; an
unconstrained set simplifies to the empty sequence.  Modelled as
deduplication followed by a canonical sort. -/
def simplify_specifiers (s : SpecifierSet) : List Specifier :=
  sortBy (fun a b => strLt (specStr a) (specStr b)) (uniques s)

/-- `Requirement.split`: an empty simplified constraint yields one
unconstrained `SimpleRequirement`; otherwise one per simplified
comparison, failing when `single` is set and more than one remains. -/
def Requirement.split (r : Requirement) (single : Bool) :
    Except PkgError (List SimpleRequirement) :=
  let specs := simplify_specifiers r.version
  if specs.length = 0 then .ok [⟨r.name, none⟩]
  else if single = true ∧ 1 < specs.length then
    .error (.constraintError r.version r.name)
  else .ok (specs.map fun i => ⟨r.name, some i⟩)

/-- `RequirementSet`: a name-keyed insertion-ordered collection (a
Python dict), modelled as the list of stored requirements. -/
structure RequirementSet where
  reqs : List Requirement
deriving DecidableEq

/-- The stored names, in insertion order. -/
def RequirementSet.names (s : RequirementSet) : List String := s.reqs.map (·.name)

/-- `item.name in self._reqs`. -/
def RequirementSet.containsName (s : RequirementSet) (n : String) : Bool :=
  s.reqs.any (fun r => r.name == n)

/-- `self._reqs[n]` (lookup by name). -/
def RequirementSet.find (s : RequirementSet) (n : String) : Option Requirement :=
  s.reqs.find? (fun r => r.name == n)

/-- The in-place `self._reqs[item.name].merge(item)`: merge `item`
into every stored entry bearing its name. -/
def RequirementSet.mergeName (s : RequirementSet) (item : Requirement) : RequirementSet :=
  ⟨s.reqs.map fun r => if r.name == item.name then r.merge item else r⟩

/-- `RequirementSet.add`: insert a new entry, or merge into the
existing entry of the same name. -/
def RequirementSet.add (s : RequirementSet) (item : Requirement) : RequirementSet :=
  if s.containsName item.name then s.mergeName item
  else ⟨s.reqs ++ [item]⟩

/-- `RequirementSet.remove`: `del self._reqs[item.name]`. -/
def RequirementSet.removeName (s : RequirementSet) (n : String) : RequirementSet :=
  ⟨s.reqs.filter fun r => !(r.name == n)⟩

/-- `RequirementSet.update`: `add` every element of `other`. -/
def RequirementSet.update (s other : RequirementSet) : RequirementSet :=
  other.reqs.foldl .add s

/-- One snapshot item of `merge_into`: if its name exists in `self`,
merge it there and delete it from `other`. -/
def RequirementSet.mergeIntoStep (p : RequirementSet × RequirementSet)
    (i : Requirement) : RequirementSet × RequirementSet :=
  if p.1.containsName i.name then (p.1.mergeName i, p.2.removeName i.name) else p

/-- `RequirementSet.merge_into`: walk a snapshot of `other`; every item
whose name exists in `self` is merged into `self`'s entry and removed
from `other`.  Returns the final `(self, other)` pair. -/
def RequirementSet.mergeInto (s other : RequirementSet) :
    RequirementSet × RequirementSet :=
  other.reqs.foldl mergeIntoStep (s, other)

/-- The `sum(...)` of `RequirementSet.split`: split each entry in
iteration order, concatenating the pieces; the first failure
propagates. -/
def splitAll (single : Bool) : List Requirement →
    Except PkgError (List SimpleRequirement)
  | [] => .ok []
  | r :: rs => do
    let x ← r.split single
    let xs ← splitAll single rs
    return x ++ xs

/-- `RequirementSet.split`: flatten every entry via `Requirement.split`
and sort the concatenation by name (Python `sorted` with a key). -/
def RequirementSet.split (s : RequirementSet) (single : Bool) :
    Except PkgError (List SimpleRequirement) := do
  let ls ← splitAll single s.reqs
  return sortBy (fun a b => strLt a.name b.name) ls

/-- Option values found in a system package's `all_options` mapping:
`isiterable` distinguishes list-valued entries from scalars. -/
inductive OptionValue where
  | iter (toks : List String)
  | scalar (tok : String)
deriving DecidableEq

/-- A pre-resolved non-pkg-config package handle (`CommonPackage`),
exposing its option mapping in insertion order. -/
structure SystemPackage where
  id : String
  allOptions : List (String × OptionValue)
deriving DecidableEq

/-- The heterogeneous inputs accepted by `_filter_packages`, as a
closed tagged variant: a bare name string, a `(name, version)` tuple, a
resolved `PkgConfigPackage` (name plus specifier), a `CommonPackage`,
or anything else (`other`, carrying the offending Python type's name). -/
inductive PackageRef where
  | str (name : String)
  | pair (name : String) (version : SpecifierSet)
  | pkgConfig (name : String) (specifier : SpecifierSet)
  | system (pkg : SystemPackage)
  | other (tag : String)
deriving DecidableEq

/-- Loop of `PkgConfigInfo._filter_packages`, carrying the two
accumulators; the system list is deduplicated on return. -/
def filterPackagesAux (pkgCfg : RequirementSet) (system : List SystemPackage) :
    List PackageRef → Except PkgError (RequirementSet × List SystemPackage)
  | [] => .ok (pkgCfg, uniques system)
  | i :: rest =>
    match i with
    | .str n => filterPackagesAux (pkgCfg.add ⟨n, []⟩) system rest
    | .pair n v => filterPackagesAux (pkgCfg.add ⟨n, v⟩) system rest
    | .pkgConfig n v => filterPackagesAux (pkgCfg.add ⟨n, v⟩) system rest
    | .system p => filterPackagesAux pkgCfg (system ++ [p]) rest
    | .other t => .error (.unsupportedType t)

/-- `PkgConfigInfo._filter_packages`: partition a heterogeneous input
sequence into pkg-config requirements and system package handles. -/
def filterPackages (packages : List PackageRef) :
    Except PkgError (RequirementSet × List SystemPackage) :=
  filterPackagesAux ⟨[]⟩ [] packages

/-- Forwarded link data exposed by a library handle
(`i.forward_args`): the libraries callers must also link and the link
options they must also pass. -/
structure ForwardArgs where
  libs : List String
  options : List String

/-- The build-graph collaborator (read-only): per-library forwarded
link data (`forward_args`, absent on plain libraries) and declared
package dependencies (`package_deps`).  Libraries are identified by
name. -/
structure BuildGraph where
  forwardArgs : String → Option ForwardArgs
  packageDeps : String → List PackageRef

/-- `PkgConfigInfo` state after its property setters have normalized
the inputs: `requires`/`requires_private` hold the output of
`_filter_packages`, `conflicts` only its requirement part, and the
option fields are already token lists. -/
structure PkgConfigInfo where
  name : Option String := none
  desc_name : Option String := none
  desc : Option String := none
  url : Option String := none
  version : Option String := none
  includes : Option (List String) := none
  libs : Option (List String) := none
  libs_private : Option (List String) := none
  requires : Option (RequirementSet × List SystemPackage) := none
  requires_private : Option (RequirementSet × List SystemPackage) := none
  conflicts : Option RequirementSet := none
  options : List String := []
  link_options : List String := []
  link_options_private : List String := []
  auto_fill : Bool := true
deriving DecidableEq

/-- The `result` dict built by `_process_inputs`. -/
structure ProcessResult where
  name : Option String
  desc_name : Option String
  desc : String
  url : Option String
  version : Option String
  requires : List SimpleRequirement
  requires_private : List SimpleRequirement
  conflicts : List SimpleRequirement
  includes : List String
  libs : List String
  libs_private : List String
  extra_fields : List (String × List String)
  cflags : List String
  ldflags : List String
  ldflags_private : List String
deriving DecidableEq

/-- Python `a or b` on optional strings (`None` and `''` are falsy). -/
def pyOr (a b : Option String) : Option String :=
  match a with
  | some s => if s = "" then b else some s
  | none => b

/-- Python `str` applied to an optional value (`None` → `"None"`). -/
def optStr : Option String → String
  | some s => s
  | none => "None"

/-- `defaultdict(list)` append into an association list: the key is
created at the end on first use. -/
def extendEntry (ef : List (String × List String)) (k : String)
    (v : List String) : List (String × List String) :=
  if ef.any (fun p => p.1 == k) then
    ef.map fun p => if p.1 == k then (p.1, p.2 ++ v) else p
  else ef ++ [(k, v)]

/-- One `all_options` entry under `process_packages(..., private=False)`:
list-valued options keyed `includes`/`libs` extend the corresponding
result lists, any other list-valued option extends the `extra_fields`
side table; scalars are skipped. -/
def pubOptionStep
    (acc : List String × List String × List (String × List String))
    (kv : String × OptionValue) :
    List String × List String × List (String × List String) :=
  match kv.2 with
  | .iter v =>
    if kv.1 == "includes" then (acc.1 ++ v, acc.2.1, acc.2.2)
    else if kv.1 == "libs" then (acc.1, acc.2.1 ++ v, acc.2.2)
    else (acc.1, acc.2.1, extendEntry acc.2.2 kv.1 v)
  | .scalar _ => acc

/-- `process_packages(pkgs)` with `private=False`. -/
def processPackagesPublic :
    List SystemPackage → List String → List String →
      List (String × List String) →
      List String × List String × List (String × List String)
  | [], incl, libs, ef => (incl, libs, ef)
  | p :: ps, incl, libs, ef =>
      let acc := p.allOptions.foldl pubOptionStep (incl, libs, ef)
      processPackagesPublic ps acc.1 acc.2.1 acc.2.2

/-- One package's options under `process_packages(..., private=True)`:
the core keys become `includes_private`/`libs_private`; `result` only
has a `libs_private` entry, so every other list-valued key raises a
`KeyError` (`includes_private` on the core lookup, the missing
`extra_fields_private` key otherwise). -/
def processOptionsPrivate (libsPriv : List String) :
    List (String × OptionValue) → Except PkgError (List String)
  | [] => .ok libsPriv
  | (k, v) :: rest =>
    match v with
    | .iter toks =>
        if k == "libs_private" then processOptionsPrivate (libsPriv ++ toks) rest
        else if k == "includes_private" then .error (.keyError "includes_private")
        else .error (.keyError "extra_fields_private")
    | .scalar _ => processOptionsPrivate libsPriv rest

/-- `process_packages(pkgs, private=True)` over a package list. -/
def processPackagesPrivate (libsPriv : List String) :
    List SystemPackage → Except PkgError (List String)
  | [] => .ok libsPriv
  | p :: ps => do
      let l ← processOptionsPrivate libsPriv p.allOptions
      processPackagesPrivate l ps

/-- `PkgConfigInfo._process_inputs`.  Returns the resolved field set
together with the descriptor state left behind by the run: the method
mutates the stored `requires`/`requires_private` sets in place and,
through list aliasing, the stored `includes`/`libs` lists (only when
those are set and non-empty, since `x or []` rebinds falsy values). -/
def processInputs (g : BuildGraph) (d : PkgConfigInfo) :
    Except PkgError (ProcessResult × PkgConfigInfo) := do
  let descName := pyOr d.desc_name d.name
  let descStr := match d.desc with
    | some s => if s = "" then optStr descName ++ " library" else s
    | none => optStr descName ++ " library"
  let includes := d.includes.getD []
  let libs := d.libs.getD []
  let libsPrivate0 := d.libs_private.getD []
  let (requires0, extra) := d.requires.getD (⟨[]⟩, [])
  let (requiresPrivate0, extraPrivate) := d.requires_private.getD (⟨[]⟩, [])
  let conflicts := d.conflicts.getD ⟨[]⟩
  let fwdLdflags := ((libs ++ libsPrivate0).map
    (fun i => match g.forwardArgs i with
      | some fa => fa.options
      | none => [])).flatten
  let libsPrivate := uniques (
    (((libs ++ libsPrivate0).filter (fun i => !(libs.contains i))).map
      (fun i => match g.forwardArgs i with
        | some fa => fa.libs
        | none => [])).flatten ++ libsPrivate0)
  let (autoRequires, autoExtra) ←
    filterPackages (((libs ++ libsPrivate).map g.packageDeps).flatten)
  let requiresPrivate1 := requiresPrivate0.update autoRequires
  let (requires1, requiresPrivate2) := requires0.mergeInto requiresPrivate1
  let reqSplit ← requires1.split true
  let reqPrivSplit ← requiresPrivate2.split true
  let conflSplit ← conflicts.split false
  let pubAcc := processPackagesPublic extra includes libs []
  let libsPrivateF ← processPackagesPrivate libsPrivate (extraPrivate ++ autoExtra)
  let result : ProcessResult := {
    name := d.name
    desc_name := descName
    desc := descStr
    url := d.url
    version := d.version
    requires := reqSplit
    requires_private := reqPrivSplit
    conflicts := conflSplit
    includes := pubAcc.1
    libs := pubAcc.2.1
    libs_private := libsPrivateF
    extra_fields := pubAcc.2.2
    cflags := d.options
    ldflags := d.link_options
    ldflags_private := fwdLdflags ++ d.link_options_private }
  let d' : PkgConfigInfo := { d with
    includes := match d.includes with
      | some (_ :: _) => some pubAcc.1
      | x => x
    libs := match d.libs with
      | some (_ :: _) => some pubAcc.2.1
      | x => x
    requires := d.requires.map (fun p => (requires1, p.2))
    requires_private := d.requires_private.map
      (fun p => (requiresPrivate2, p.2)) }
  return (result, d')

/-- Modelled from the spec: `installify` (install-path normalization,
an external collaborator); kept as the identity on entity names. -/
def installify (s : String) : String := s

/-- Modelled from the spec: the toolchain collaborator's compile flags
for a set of include directories (one token per directory, a pure
function of its inputs). -/
def cflagsOf (includes : List String) : List String :=
  includes.map (fun i => "-I" ++ i)

/-- Modelled from the spec: the toolchain collaborator's link
flags-plus-libraries for a set of libraries (one token per library, a
pure function of its inputs). -/
def ldlibsOf (libs : List String) : List String :=
  libs.map (fun l => "-l" ++ l)

/-- The environment snapshot consumed by `write`: install-root
name/path pairs for the variable header (the executable-binary root
already excluded). -/
structure Env where
  installDirs : List (String × String)

/-- `_write_variable`. -/
def writeVariable (n v : String) : String := n ++ "=" ++ v ++ "\n"

/-- `_write_field` for a single string value (falsy values omitted). -/
def writeFieldStr (field : String) (value : Option String) : String :=
  match value with
  | some s => if s = "" then "" else field ++ ": " ++ s ++ "\n"
  | none => ""

/-- `_write_field` for a token list (empty lists omitted). -/
def writeFieldList (field delim : String) (toks : List String) : String :=
  if toks = [] then "" else field ++ ": " ++ String.intercalate delim toks ++ "\n"

/-- A requirement-valued field: entries rendered through
`SimpleRequirement._safe_str`, comma-delimited. -/
def writeReqField (field : String) (rs : List SimpleRequirement) : String :=
  writeFieldList field ", " (rs.map SimpleRequirement.safeStr)

/-- The serialized text produced by `PkgConfigInfo.write` for one
resolved field set. -/
def writeOutput (env : Env) (r : ProcessResult) : String :=
  String.join (env.installDirs.map fun p => writeVariable p.1 p.2) ++ "\n" ++
  writeFieldStr "Name" r.desc_name ++
  writeFieldStr "Description" (some r.desc) ++
  writeFieldStr "URL" r.url ++
  writeFieldStr "Version" r.version ++
  writeReqField "Requires" r.requires ++
  writeReqField "Requires.private" r.requires_private ++
  writeReqField "Conflicts" r.conflicts ++
  writeFieldList "Cflags" " " (cflagsOf (r.includes.map installify) ++ r.cflags) ++
  writeFieldList "Libs" " " (ldlibsOf (r.libs.map installify) ++ r.ldflags) ++
  writeFieldList "Libs.private" " "
    (ldlibsOf (r.libs_private.map installify) ++ r.ldflags_private)

/-- `PkgConfigInfo.write`: resolve, then serialize; returns the bytes
and the post-run descriptor state. -/
def write (g : BuildGraph) (env : Env) (d : PkgConfigInfo) :
    Except PkgError (String × PkgConfigInfo) :=
  (processInputs g d).map (fun p => (writeOutput env p.1, p.2))

/-- The build-wide state consumed by `finalize_pkg_config`: project
identity, the installed headers and installed library parents (already
filtered by entity type from the install list), and the declared
descriptors. -/
structure BuildState where
  projectName : String
  projectVersion : Option String
  installHeaders : List String
  installLibs : List String
  pkgConfig : List PkgConfigInfo

/-- The auto-fill step of `finalize_pkg_config`: descriptors with
`auto_fill` set get unset name/version/includes/libs back-filled from
the build-wide defaults. -/
def autoFill (b : BuildState) (d : PkgConfigInfo) : PkgConfigInfo :=
  if d.auto_fill then
    { d with
      name := if d.name = none then some b.projectName else d.name,
      version := if d.version = none
        then some ((pyOr b.projectVersion (some "0.0")).getD "0.0")
        else d.version,
      includes := if d.includes = none then some b.installHeaders else d.includes,
      libs := if d.libs = none then some (uniques b.installLibs) else d.libs }
  else d

/-- The first duplicated name in `Counter` iteration order (keys in
first-seen order), if any. -/
def findDup (names : List (Option String)) : Option (Option String) :=
  (uniques names).find? (fun n => decide (1 < names.count n))

/-- `finalize_pkg_config`: auto-fill, validate global name uniqueness,
then write one file per descriptor; returns the (path, content) pairs.
The duplicate check precedes every write. -/
def finalize (g : BuildGraph) (env : Env) (b : BuildState) :
    Except PkgError (List (String × String)) :=
  let infos := b.pkgConfig.map (autoFill b)
  match findDup (infos.map (·.name)) with
  | some n => .error (.duplicateName
      ("duplicate pkg-config package '" ++ optStr n ++ "'"))
  | none => infos.mapM (fun i =>
      (write g env i).map (fun p => ("pkgconfig/" ++ optStr i.name ++ ".pc", p.1)))

/-! ### Proof-support definitions -/

/-- The first component of one `merge_into` step. -/
def RequirementSet.mergeStep (s : RequirementSet) (i : Requirement) : RequirementSet :=
  if s.containsName i.name then s.mergeName i else s

/-- Pointwise description of folding a whole set into one entry: merge
the entry of `o` carrying the same name into `e`, if there is one. -/
def RequirementSet.mergeWith (o : RequirementSet) (e : Requirement) : Requirement :=
  match o.find e.name with
  | some i => e.merge i
  | none => e

/-- The requirement `_filter_packages` constructs for a
pkg-config-style reference, if the reference is one. -/
def refToReq : PackageRef → Option Requirement
  | .str n => some ⟨n, []⟩
  | .pair n v => some ⟨n, v⟩
  | .pkgConfig n v => some ⟨n, v⟩
  | _ => none

/-- The system package carried by a reference, if it is one. -/
def refToSystem : PackageRef → Option SystemPackage
  | .system p => some p
  | _ => none

/-- Whether a reference has one of the shapes `_filter_packages`
rejects with its `TypeError`. -/
def PackageRef.isUnsupported : PackageRef → Bool
  | .other _ => true
  | _ => false

/-- Representation invariant of a reference's version specifier: a
Python `SpecifierSet` is a set, so its model is duplicate-free. -/
def PackageRef.specNormalized : PackageRef → Prop
  | .pair _ v => uniques v = v
  | .pkgConfig _ v => uniques v = v
  | _ => True

/-- Every stored constraint is duplicate-free (each is the image of a
Python `SpecifierSet`). -/
def RequirementSet.versionsNormalized (s : RequirementSet) : Prop :=
  ∀ r ∈ s.reqs, uniques r.version = r.version

/-! ### Library lemmas about `uniques` -/

theorem mem_uniquesAux {α : Type} [DecidableEq α] {x : α} :
    ∀ {seen l : List α}, x ∈ uniquesAux seen l ↔ x ∈ l ∧ x ∉ seen := by
  intro seen l
  induction l generalizing seen with
  | nil => simp [uniquesAux]
  | cons a l ih =>
    by_cases ha : a ∈ seen
    · simp only [uniquesAux, if_pos ha, ih, List.mem_cons]
      constructor
      · rintro ⟨hx, hs⟩; exact ⟨Or.inr hx, hs⟩
      · rintro ⟨hx | hx, hs⟩
        · exact absurd (hx ▸ ha) hs
        · exact ⟨hx, hs⟩
    · simp only [uniquesAux, if_neg ha, List.mem_cons, ih]
      constructor
      · rintro (rfl | ⟨hx, hs⟩)
        · exact ⟨Or.inl rfl, ha⟩
        · exact ⟨Or.inr hx, fun h => hs (Or.inr h)⟩
      · rintro ⟨rfl | hx, hs⟩
        · exact Or.inl rfl
        · by_cases hxa : x = a
          · exact Or.inl hxa
          · exact Or.inr ⟨hx, fun h => h.elim hxa hs⟩

theorem mem_uniques {α : Type} [DecidableEq α] {x : α} {l : List α} :
    x ∈ uniques l ↔ x ∈ l := by
  simp [uniques, mem_uniquesAux]

theorem nodup_uniquesAux {α : Type} [DecidableEq α] :
    ∀ {seen l : List α}, (uniquesAux seen l).Nodup := by
  intro seen l
  induction l generalizing seen with
  | nil => simp [uniquesAux]
  | cons a l ih =>
    by_cases ha : a ∈ seen
    · simpa [uniquesAux, if_pos ha] using ih
    · simp only [uniquesAux, if_neg ha, List.nodup_cons]
      refine ⟨fun h => ?_, ih⟩
      exact (mem_uniquesAux.mp h).2 (List.mem_cons_self _ _)

theorem nodup_uniques {α : Type} [DecidableEq α] {l : List α} :
    (uniques l).Nodup := nodup_uniquesAux

theorem uniquesAux_eq_self {α : Type} [DecidableEq α] :
    ∀ {l seen : List α}, l.Nodup → (∀ x ∈ l, x ∉ seen) → uniquesAux seen l = l := by
  intro l
  induction l with
  | nil => intro seen _ _; rfl
  | cons a l ih =>
    intro seen hnd hdisj
    have ha : a ∉ seen := hdisj a (List.mem_cons_self _ _)
    have hnd' := List.nodup_cons.mp hnd
    simp only [uniquesAux, if_neg ha]
    congr 1
    refine ih hnd'.2 ?_
    intro x hx
    intro hmem
    rcases List.mem_cons.mp hmem with rfl | h
    · exact hnd'.1 hx
    · exact hdisj x (List.mem_cons_of_mem _ hx) h

theorem uniques_eq_self {α : Type} [DecidableEq α] {l : List α} (h : l.Nodup) :
    uniques l = l := uniquesAux_eq_self h (by simp)

theorem uniques_idem {α : Type} [DecidableEq α] {l : List α} :
    uniques (uniques l) = uniques l := uniques_eq_self nodup_uniques

theorem uniquesAux_append_absorb {α : Type} [DecidableEq α] :
    ∀ {l seen m : List α}, (∀ x ∈ m, x ∈ l ∨ x ∈ seen) →
      uniquesAux seen (l ++ m) = uniquesAux seen l := by
  intro l
  induction l with
  | nil =>
    intro seen m h
    simp only [List.nil_append]
    induction m with
    | nil => rfl
    | cons b m ihm =>
      have hb : b ∈ seen := by
        rcases h b (List.mem_cons_self _ _) with h' | h'
        · exact absurd h' (List.not_mem_nil b)
        · exact h'
      simp only [uniquesAux, if_pos hb]
      exact ihm (fun x hx => h x (List.mem_cons_of_mem _ hx))
  | cons a l ih =>
    intro seen m h
    by_cases ha : a ∈ seen
    · simp only [List.cons_append, uniquesAux, if_pos ha]
      refine ih ?_
      intro x hx
      rcases h x hx with h' | h'
      · rcases List.mem_cons.mp h' with rfl | h''
        · exact Or.inr ha
        · exact Or.inl h''
      · exact Or.inr h'
    · simp only [List.cons_append, uniquesAux, if_neg ha]
      congr 1
      refine ih ?_
      intro x hx
      rcases h x hx with h' | h'
      · rcases List.mem_cons.mp h' with rfl | h''
        · exact Or.inr (List.mem_cons_self _ _)
        · exact Or.inl h''
      · exact Or.inr (List.mem_cons_of_mem _ h')

theorem uniques_append_absorb {α : Type} [DecidableEq α] {l m : List α}
    (h : ∀ x ∈ m, x ∈ l) : uniques (l ++ m) = uniques l :=
  uniquesAux_append_absorb (fun x hx => Or.inl (h x hx))

/-! ### Lemmas about `Requirement` and `RequirementSet` operations -/

theorem Requirement.merge_name (r i : Requirement) : (r.merge i).name = r.name := rfl

theorem Requirement.merge_version (r i : Requirement) :
    (r.merge i).version = specAnd r.version i.version := rfl

theorem mem_specAnd {a b : SpecifierSet} {x : Specifier} :
    x ∈ specAnd a b ↔ x ∈ a ∨ x ∈ b := by
  simp [specAnd, mem_uniques]

theorem uniques_specAnd {a b : SpecifierSet} :
    uniques (specAnd a b) = specAnd a b := uniques_idem

/-- Merging an argument whose comparisons are already present leaves a
requirement with a duplicate-free constraint unchanged. -/
theorem Requirement.merge_absorb {r i : Requirement}
    (hfix : uniques r.version = r.version)
    (hsub : ∀ x ∈ i.version, x ∈ r.version) : r.merge i = r := by
  cases r with
  | mk n v =>
    simp only [Requirement.merge, specAnd]
    congr 1
    calc uniques (v ++ i.version) = uniques v := uniques_append_absorb hsub
    _ = v := hfix

theorem containsName_iff {s : RequirementSet} {n : String} :
    s.containsName n = true ↔ n ∈ s.names := by
  simp [RequirementSet.containsName, RequirementSet.names, List.any_eq_true]

theorem names_mergeName (s : RequirementSet) (i : Requirement) :
    (s.mergeName i).names = s.names := by
  simp only [RequirementSet.mergeName, RequirementSet.names, List.map_map]
  refine List.map_congr_left ?_
  intro r _
  simp only [Function.comp]
  split <;> rfl

theorem containsName_mergeName (s : RequirementSet) (i : Requirement) (n : String) :
    (s.mergeName i).containsName n = s.containsName n := by
  by_cases h : s.containsName n = true
  · rw [h]
    rw [containsName_iff] at h ⊢
    rwa [names_mergeName]
  · rw [Bool.eq_false_iff.mpr h]
    rw [Bool.eq_false_iff]
    intro h'
    rw [containsName_iff, names_mergeName, ← containsName_iff] at h'
    exact h h'

theorem containsName_congr {s t : RequirementSet} (h : s.names = t.names)
    (n : String) : s.containsName n = t.containsName n := by
  by_cases hb : s.containsName n = true
  · rw [hb]
    exact (containsName_iff.mpr (h ▸ containsName_iff.mp hb)).symm
  · have ht : ¬ t.containsName n = true := fun h' =>
      hb (containsName_iff.mpr (h.symm ▸ containsName_iff.mp h'))
    rw [Bool.eq_false_iff.mpr hb, Bool.eq_false_iff.mpr ht]

theorem mergeWith_name (o : RequirementSet) (e : Requirement) :
    (o.mergeWith e).name = e.name := by
  unfold RequirementSet.mergeWith
  cases o.find e.name <;> rfl

theorem names_mergeStep (s : RequirementSet) (i : Requirement) :
    (s.mergeStep i).names = s.names := by
  unfold RequirementSet.mergeStep
  split
  · exact names_mergeName s i
  · rfl

theorem mergeIntoStep_eq (p : RequirementSet × RequirementSet) (i : Requirement) :
    RequirementSet.mergeIntoStep p i =
      (p.1.mergeStep i,
       if p.1.containsName i.name then p.2.removeName i.name else p.2) := by
  by_cases h : p.1.containsName i.name = true <;>
    simp [RequirementSet.mergeIntoStep, RequirementSet.mergeStep, h]

theorem mergeInto_foldl_fst (items : List Requirement) :
    ∀ (s o : RequirementSet),
      (items.foldl RequirementSet.mergeIntoStep (s, o)).1 =
        items.foldl RequirementSet.mergeStep s := by
  induction items with
  | nil => intro s o; rfl
  | cons i items ih =>
    intro s o
    rw [List.foldl_cons, List.foldl_cons, mergeIntoStep_eq]
    exact ih _ _

theorem names_foldl_mergeStep (items : List Requirement) :
    ∀ s : RequirementSet,
      (items.foldl RequirementSet.mergeStep s).names = s.names := by
  induction items with
  | nil => intro s; rfl
  | cons i items ih =>
    intro s
    rw [List.foldl_cons, ih, names_mergeStep]

theorem mergeInto_fst_names (s o : RequirementSet) :
    (s.mergeInto o).1.names = s.names := by
  unfold RequirementSet.mergeInto
  rw [mergeInto_foldl_fst, names_foldl_mergeStep]

theorem mergeInto_foldl_snd (items : List Requirement) :
    ∀ (s o : RequirementSet),
      (items.foldl RequirementSet.mergeIntoStep (s, o)).2.reqs =
        o.reqs.filter
          (fun r => !(s.containsName r.name &&
            items.any (fun i => i.name == r.name))) := by
  induction items with
  | nil =>
    intro s o
    simp
  | cons i items ih =>
    intro s o
    rw [List.foldl_cons, mergeIntoStep_eq, ih]
    have hc : ∀ n, (s.mergeStep i).containsName n = s.containsName n :=
      fun n => containsName_congr (names_mergeStep s i) n
    simp only [hc]
    by_cases hcond : s.containsName i.name = true
    · rw [if_pos hcond]
      unfold RequirementSet.removeName
      rw [List.filter_filter]
      refine List.filter_congr ?_
      intro r hr
      by_cases hname : r.name = i.name
      · have h1 : (r.name == i.name) = true := beq_iff_eq.mpr hname
        have h2 : (i.name == r.name) = true := beq_iff_eq.mpr hname.symm
        have h3 : s.containsName r.name = true := hname ▸ hcond
        simp [h1, h2, h3, List.any_cons]
      · have h1 : (r.name == i.name) = false := by
          simp [hname]
        have h2 : (i.name == r.name) = false := by
          simp [Ne.symm hname]
        simp [h1, h2, List.any_cons]
    · rw [if_neg hcond]
      refine List.filter_congr ?_
      intro r hr
      by_cases hname : r.name = i.name
      · have h2 : (i.name == r.name) = true := beq_iff_eq.mpr hname.symm
        have h3 : s.containsName r.name = false := by
          rw [hname]
          exact Bool.eq_false_iff.mpr hcond
        simp [h2, h3, List.any_cons]
      · have h2 : (i.name == r.name) = false := by
          simp [Ne.symm hname]
        simp [h2, List.any_cons]

theorem mergeInto_snd (s o : RequirementSet) :
    (s.mergeInto o).2.reqs =
      o.reqs.filter (fun r => !(s.containsName r.name)) := by
  unfold RequirementSet.mergeInto
  rw [mergeInto_foldl_snd]
  refine List.filter_congr ?_
  intro r hr
  have ha : o.reqs.any (fun i => i.name == r.name) = true :=
    List.any_eq_true.mpr ⟨r, hr, by simp⟩
  rw [ha, Bool.and_true]

theorem mergeStep_reqs (s : RequirementSet) (i : Requirement) :
    (s.mergeStep i).reqs =
      s.reqs.map (fun r => if r.name == i.name then r.merge i else r) := by
  unfold RequirementSet.mergeStep
  by_cases h : s.containsName i.name = true
  · rw [if_pos h]; rfl
  · rw [if_neg h]
    have hnone : ∀ r ∈ s.reqs, (r.name == i.name) = false := by
      intro r hr
      cases hb : (r.name == i.name) with
      | false => rfl
      | true =>
        exact absurd (List.any_eq_true.mpr ⟨r, hr, hb⟩) h
    symm
    calc s.reqs.map (fun r => if r.name == i.name then r.merge i else r)
        = s.reqs.map id := List.map_congr_left (fun r hr => by simp [hnone r hr])
    _ = s.reqs := List.map_id _

theorem mergeWith_cons (i : Requirement) (items : List Requirement)
    (hni : i.name ∉ items.map (fun j => j.name)) (r : Requirement) :
    RequirementSet.mergeWith ⟨i :: items⟩ r =
      RequirementSet.mergeWith ⟨items⟩
        (if r.name == i.name then r.merge i else r) := by
  by_cases hname : r.name = i.name
  · have hb : (r.name == i.name) = true := beq_iff_eq.mpr hname
    have hhead : (i.name == r.name) = true := beq_iff_eq.mpr hname.symm
    have hnone : items.find? (fun j => j.name == r.name) = none := by
      rw [List.find?_eq_none]
      intro j hj hx
      refine hni ?_
      rw [← hname, ← beq_iff_eq.mp hx]
      exact List.mem_map.mpr ⟨j, hj, rfl⟩
    simp only [RequirementSet.mergeWith, RequirementSet.find, hb, if_true,
      List.find?_cons, hhead, Requirement.merge_name, hnone]
  · have hb : (r.name == i.name) = false := by simp [hname]
    have hhead : (i.name == r.name) = false := by simp [Ne.symm hname]
    simp only [RequirementSet.mergeWith, RequirementSet.find, hb,
      Bool.false_eq_true, if_false, List.find?_cons, hhead]

theorem foldl_mergeStep_closed (items : List Requirement)
    (hnd : (items.map (fun i => i.name)).Nodup) :
    ∀ s : RequirementSet,
      (items.foldl RequirementSet.mergeStep s).reqs =
        s.reqs.map (RequirementSet.mergeWith ⟨items⟩) := by
  induction items with
  | nil =>
    intro s
    symm
    calc s.reqs.map (RequirementSet.mergeWith ⟨[]⟩)
        = s.reqs.map id := List.map_congr_left (fun r hr => rfl)
    _ = s.reqs := List.map_id _
  | cons i items ih =>
    intro s
    have hnd' := List.nodup_cons.mp hnd
    rw [List.foldl_cons, ih hnd'.2, mergeStep_reqs, List.map_map]
    refine List.map_congr_left ?_
    intro r hr
    exact (mergeWith_cons i items hnd'.1 r).symm

theorem mergeInto_fst (s o : RequirementSet) (ho : o.names.Nodup) :
    (s.mergeInto o).1.reqs = s.reqs.map (RequirementSet.mergeWith o) := by
  unfold RequirementSet.mergeInto
  rw [mergeInto_foldl_fst, foldl_mergeStep_closed o.reqs ho]

theorem foldl_add_closed (items : List Requirement)
    (hnd : (items.map (fun i => i.name)).Nodup) :
    ∀ o : RequirementSet,
      (items.foldl RequirementSet.add o).reqs =
        o.reqs.map (RequirementSet.mergeWith ⟨items⟩) ++
          items.filter (fun i => !(o.containsName i.name)) := by
  induction items with
  | nil =>
    intro o
    simp only [List.foldl_nil, List.filter_nil, List.append_nil]
    symm
    calc o.reqs.map (RequirementSet.mergeWith ⟨[]⟩)
        = o.reqs.map id := List.map_congr_left (fun r _ => rfl)
    _ = o.reqs := List.map_id _
  | cons i items ih =>
    intro o
    have hnd' := List.nodup_cons.mp hnd
    rw [List.foldl_cons, ih hnd'.2]
    by_cases hc : o.containsName i.name = true
    · have hadd : o.add i = o.mergeName i := by
        unfold RequirementSet.add
        rw [if_pos hc]
      rw [hadd]
      have hmn : (o.mergeName i).reqs =
          o.reqs.map (fun r => if r.name == i.name then r.merge i else r) := rfl
      have hmap : (o.mergeName i).reqs.map (RequirementSet.mergeWith ⟨items⟩) =
          o.reqs.map (RequirementSet.mergeWith ⟨i :: items⟩) := by
        rw [hmn, List.map_map]
        refine List.map_congr_left ?_
        intro r _
        exact (mergeWith_cons i items hnd'.1 r).symm
      have hfil : items.filter (fun j => !((o.mergeName i).containsName j.name)) =
          items.filter (fun j => !(o.containsName j.name)) := by
        refine List.filter_congr ?_
        intro j _
        rw [containsName_congr (names_mergeName o i) j.name]
      have hfil2 : (i :: items).filter (fun j => !(o.containsName j.name)) =
          items.filter (fun j => !(o.containsName j.name)) := by
        rw [List.filter_cons]
        simp [hc]
      rw [hmap, hfil, hfil2]
    · have hadd : (o.add i).reqs = o.reqs ++ [i] := by
        unfold RequirementSet.add
        rw [if_neg hc]
      have hnames : ∀ n, (o.add i).containsName n =
          (o.containsName n || (i.name == n)) := by
        intro n
        unfold RequirementSet.containsName
        rw [hadd, List.any_append]
        simp [List.any_cons]
      have hreqs0 : ∀ r ∈ o.reqs, (r.name == i.name) = false := by
        intro r hr
        cases hb : (r.name == i.name) with
        | false => rfl
        | true => exact absurd (List.any_eq_true.mpr ⟨r, hr, hb⟩) hc
      have hmWi : RequirementSet.mergeWith ⟨items⟩ i = i := by
        unfold RequirementSet.mergeWith RequirementSet.find
        have hfd : items.find? (fun j => j.name == i.name) = none := by
          rw [List.find?_eq_none]
          intro j hj hx
          refine hnd'.1 ?_
          show i.name ∈ items.map (fun j => j.name)
          rw [← beq_iff_eq.mp hx]
          exact List.mem_map.mpr ⟨j, hj, rfl⟩
        rw [hfd]
      have hmap : (o.reqs ++ [i]).map (RequirementSet.mergeWith ⟨items⟩) =
          o.reqs.map (RequirementSet.mergeWith ⟨i :: items⟩) ++ [i] := by
        rw [List.map_append]
        congr 1
        · refine List.map_congr_left ?_
          intro r hr
          rw [mergeWith_cons i items hnd'.1 r]
          simp [hreqs0 r hr]
        · simp [hmWi]
      have hfil : items.filter (fun j => !((o.add i).containsName j.name)) =
          items.filter (fun j => !(o.containsName j.name)) := by
        refine List.filter_congr ?_
        intro j hj
        have hji : (i.name == j.name) = false := by
          cases hb : (i.name == j.name) with
          | false => rfl
          | true =>
            refine absurd ?_ hnd'.1
            show i.name ∈ items.map (fun j => j.name)
            rw [beq_iff_eq.mp hb]
            exact List.mem_map.mpr ⟨j, hj, rfl⟩
        rw [hnames, hji, Bool.or_false]
      have hfil2 : (i :: items).filter (fun j => !(o.containsName j.name)) =
          i :: items.filter (fun j => !(o.containsName j.name)) := by
        rw [List.filter_cons]
        simp [Bool.eq_false_iff.mpr hc]
      rw [hadd, hmap, hfil, hfil2, List.append_assoc]
      rfl

theorem update_reqs (o a : RequirementSet) (ha : a.names.Nodup) :
    (o.update a).reqs =
      o.reqs.map (RequirementSet.mergeWith a) ++
        a.reqs.filter (fun i => !(o.containsName i.name)) := by
  unfold RequirementSet.update
  exact foldl_add_closed a.reqs ha o

theorem update_names (o a : RequirementSet) (ha : a.names.Nodup) :
    (o.update a).names =
      o.names ++
        (a.reqs.filter (fun i => !(o.containsName i.name))).map
          (fun i => i.name) := by
  unfold RequirementSet.names
  rw [update_reqs o a ha, List.map_append, List.map_map]
  congr 1
  refine List.map_congr_left ?_
  intro r _
  simp only [Function.comp]
  exact mergeWith_name a r

theorem update_names_nodup (o a : RequirementSet) (ho : o.names.Nodup)
    (ha : a.names.Nodup) : (o.update a).names.Nodup := by
  rw [update_names o a ha]
  rw [List.nodup_append]
  refine ⟨ho, ?_, ?_⟩
  · exact ha.sublist (List.Sublist.map _ (List.filter_sublist _))
  · intro x hx hx2
    rcases List.mem_map.mp hx2 with ⟨i, hi, rfl⟩
    have hmem := List.mem_filter.mp hi
    exact absurd (containsName_iff.mpr hx) (by simpa using hmem.2)

theorem mem_insertBy {α : Type} {lt : α → α → Bool} {x a : α} :
    ∀ {l : List α}, a ∈ insertBy lt x l ↔ a = x ∨ a ∈ l := by
  intro l
  induction l with
  | nil => simp [insertBy]
  | cons y ys ih =>
    unfold insertBy
    split
    · rw [List.mem_cons, ih, List.mem_cons]
      tauto
    · rw [List.mem_cons, List.mem_cons]

theorem mem_sortBy {α : Type} {lt : α → α → Bool} {a : α} :
    ∀ {l : List α}, a ∈ sortBy lt l ↔ a ∈ l := by
  intro l
  induction l with
  | nil => simp [sortBy]
  | cons y ys ih =>
    unfold sortBy
    rw [mem_insertBy, ih, List.mem_cons]

theorem find?_name_none {l : List Requirement} {n : String}
    (h : ∀ r ∈ l, r.name ≠ n) :
    l.find? (fun x => x.name == n) = none := by
  rw [List.find?_eq_none]
  intro r hr hx
  exact h r hr (beq_iff_eq.mp hx)

theorem find?_name_unique {l : List Requirement}
    (h : (l.map (fun r => r.name)).Nodup) {n : String} {r : Requirement}
    (hr : r ∈ l) (hn : r.name = n) :
    l.find? (fun x => x.name == n) = some r := by
  induction l with
  | nil => cases hr
  | cons y ys ih =>
    have h' := List.nodup_cons.mp h
    rcases List.mem_cons.mp hr with rfl | hr'
    · rw [List.find?_cons]
      simp [beq_iff_eq.mpr hn]
    · have hy : (y.name == n) = false := by
        cases hb : (y.name == n) with
        | false => rfl
        | true =>
          refine absurd ?_ h'.1
          show y.name ∈ ys.map (fun r => r.name)
          rw [beq_iff_eq.mp hb, ← hn]
          exact List.mem_map.mpr ⟨r, hr', rfl⟩
      rw [List.find?_cons, hy]
      exact ih h'.2 hr'

theorem mergeWith_idem (o : RequirementSet) (e : Requirement) :
    o.mergeWith (o.mergeWith e) = o.mergeWith e := by
  cases hf : o.find e.name with
  | none =>
    have h1 : o.mergeWith e = e := by
      unfold RequirementSet.mergeWith
      rw [hf]
    rw [h1]
    exact h1
  | some j =>
    have h1 : o.mergeWith e = e.merge j := by
      unfold RequirementSet.mergeWith
      rw [hf]
    rw [h1]
    unfold RequirementSet.mergeWith
    rw [show (e.merge j).name = e.name from rfl, hf]
    exact Requirement.merge_absorb uniques_specAnd
      (fun x hx => mem_specAnd.mpr (Or.inr hx))

theorem Requirement.split_ok_names {r : Requirement} {single : Bool}
    {xs : List SimpleRequirement} (h : r.split single = .ok xs) :
    ∀ x ∈ xs, x.name = r.name := by
  simp only [Requirement.split] at h
  split at h
  · rw [Except.ok.injEq] at h
    subst h
    intro x hx
    rw [List.mem_singleton] at hx
    subst hx
    rfl
  · split at h
    · exact Except.noConfusion h
    · rw [Except.ok.injEq] at h
      subst h
      intro x hx
      rcases List.mem_map.mp hx with ⟨i, _, rfl⟩
      rfl

theorem splitAll_ok_names {single : Bool} :
    ∀ {rs : List Requirement} {xs : List SimpleRequirement},
      splitAll single rs = .ok xs → ∀ x ∈ xs, ∃ r ∈ rs, x.name = r.name := by
  intro rs
  induction rs with
  | nil =>
    intro xs h x hx
    unfold splitAll at h
    rw [Except.ok.injEq] at h
    subst h
    cases hx
  | cons r rs ih =>
    intro xs h x hx
    unfold splitAll at h
    simp only [bind, Except.bind, pure, Except.pure] at h
    cases h1 : r.split single with
    | error e =>
      rw [h1] at h
      exact Except.noConfusion h
    | ok ys =>
      rw [h1] at h
      cases h2 : splitAll single rs with
      | error e =>
        rw [h2] at h
        exact Except.noConfusion h
      | ok zs =>
        rw [h2] at h
        rw [Except.ok.injEq] at h
        subst h
        rcases List.mem_append.mp hx with hy | hz
        · exact ⟨r, List.mem_cons_self _ _, Requirement.split_ok_names h1 x hy⟩
        · rcases ih h2 x hz with ⟨r', hr', hn⟩
          exact ⟨r', List.mem_cons_of_mem _ hr', hn⟩

theorem splitNamesSubset {s : RequirementSet} {single : Bool}
    {xs : List SimpleRequirement} (h : s.split single = .ok xs) :
    ∀ x ∈ xs, x.name ∈ s.names := by
  unfold RequirementSet.split at h
  simp only [bind, Except.bind, pure, Except.pure] at h
  cases h1 : splitAll single s.reqs with
  | error e =>
    rw [h1] at h
    exact Except.noConfusion h
  | ok ls =>
    rw [h1] at h
    rw [Except.ok.injEq] at h
    subst h
    intro x hx
    rw [mem_sortBy] at hx
    rcases splitAll_ok_names h1 x hx with ⟨r, hr, hn⟩
    rw [hn]
    exact List.mem_map.mpr ⟨r, hr, rfl⟩

theorem filterPackagesAux_closed :
    ∀ (items : List PackageRef) (pkgCfg : RequirementSet)
      (system : List SystemPackage),
      (∀ i ∈ items, i.isUnsupported = false) →
      filterPackagesAux pkgCfg system items =
        .ok ((items.filterMap refToReq).foldl RequirementSet.add pkgCfg,
          uniques (system ++ items.filterMap refToSystem)) := by
  intro items
  induction items with
  | nil =>
    intro pkg sys _
    simp [filterPackagesAux]
  | cons i items ih =>
    intro pkg sys h
    have hi := h i (List.mem_cons_self _ _)
    have ht := fun j hj => h j (List.mem_cons_of_mem _ hj)
    cases i with
    | str n =>
      show filterPackagesAux (pkg.add ⟨n, []⟩) sys items = _
      rw [ih (pkg.add ⟨n, []⟩) sys ht]
      simp [refToReq, refToSystem, List.filterMap_cons]
    | pair n v =>
      show filterPackagesAux (pkg.add ⟨n, v⟩) sys items = _
      rw [ih (pkg.add ⟨n, v⟩) sys ht]
      simp [refToReq, refToSystem, List.filterMap_cons]
    | pkgConfig n v =>
      show filterPackagesAux (pkg.add ⟨n, v⟩) sys items = _
      rw [ih (pkg.add ⟨n, v⟩) sys ht]
      simp [refToReq, refToSystem, List.filterMap_cons]
    | system p =>
      show filterPackagesAux pkg (sys ++ [p]) items = _
      rw [ih pkg (sys ++ [p]) ht]
      simp [refToReq, refToSystem, List.filterMap_cons, List.append_assoc]
    | other t =>
      simp [PackageRef.isUnsupported] at hi

theorem filterPackagesAux_error :
    ∀ {items : List PackageRef} (pkgCfg : RequirementSet)
      (system : List SystemPackage),
      (∃ i ∈ items, i.isUnsupported = true) →
      ∃ t, filterPackagesAux pkgCfg system items =
        .error (.unsupportedType t) := by
  intro items
  induction items with
  | nil =>
    rintro pkg sys ⟨i, hi, _⟩
    cases hi
  | cons i items ih =>
    rintro pkg sys ⟨j, hj, hju⟩
    cases i with
    | str n =>
      rcases List.mem_cons.mp hj with rfl | hj'
      · simp [PackageRef.isUnsupported] at hju
      · exact ih (pkg.add ⟨n, []⟩) sys ⟨j, hj', hju⟩
    | pair n v =>
      rcases List.mem_cons.mp hj with rfl | hj'
      · simp [PackageRef.isUnsupported] at hju
      · exact ih (pkg.add ⟨n, v⟩) sys ⟨j, hj', hju⟩
    | pkgConfig n v =>
      rcases List.mem_cons.mp hj with rfl | hj'
      · simp [PackageRef.isUnsupported] at hju
      · exact ih (pkg.add ⟨n, v⟩) sys ⟨j, hj', hju⟩
    | system p =>
      rcases List.mem_cons.mp hj with rfl | hj'
      · simp [PackageRef.isUnsupported] at hju
      · exact ih pkg (sys ++ [p]) ⟨j, hj', hju⟩
    | other t =>
      exact ⟨t, rfl⟩

theorem add_names_nodup {s : RequirementSet} {i : Requirement}
    (h : s.names.Nodup) : (s.add i).names.Nodup := by
  unfold RequirementSet.add
  by_cases hc : s.containsName i.name = true
  · rw [if_pos hc, names_mergeName]
    exact h
  · rw [if_neg hc]
    have hn : (⟨s.reqs ++ [i]⟩ : RequirementSet).names = s.names ++ [i.name] := by
      unfold RequirementSet.names
      rw [List.map_append]
      rfl
    rw [hn, List.nodup_append]
    refine ⟨h, List.nodup_singleton _, ?_⟩
    intro x hx hx2
    rw [List.mem_singleton] at hx2
    subst hx2
    exact hc (containsName_iff.mpr hx)

theorem foldl_add_names_nodup :
    ∀ (items : List Requirement) (s : RequirementSet),
      s.names.Nodup → (items.foldl RequirementSet.add s).names.Nodup := by
  intro items
  induction items with
  | nil => intro s h; exact h
  | cons i items ih =>
    intro s h
    rw [List.foldl_cons]
    exact ih _ (add_names_nodup h)

theorem add_versionsNormalized {s : RequirementSet} {i : Requirement}
    (hs : s.versionsNormalized) (hi : uniques i.version = i.version) :
    (s.add i).versionsNormalized := by
  unfold RequirementSet.add
  by_cases hc : s.containsName i.name = true
  · rw [if_pos hc]
    intro r hr
    rcases List.mem_map.mp hr with ⟨r0, hr0, rfl⟩
    by_cases hb : (r0.name == i.name) = true
    · simp only [hb, if_true]
      exact uniques_specAnd
    · simp only [Bool.eq_false_iff.mpr hb]
      simp only [Bool.false_eq_true, if_false]
      exact hs r0 hr0
  · rw [if_neg hc]
    intro r hr
    rcases List.mem_append.mp hr with hr' | hr'
    · exact hs r hr'
    · rw [List.mem_singleton] at hr'
      subst hr'
      exact hi

theorem foldl_add_versionsNormalized :
    ∀ (items : List Requirement) (s : RequirementSet),
      s.versionsNormalized → (∀ i ∈ items, uniques i.version = i.version) →
      (items.foldl RequirementSet.add s).versionsNormalized := by
  intro items
  induction items with
  | nil => intro s h _; exact h
  | cons i items ih =>
    intro s h hall
    rw [List.foldl_cons]
    exact ih _ (add_versionsNormalized h (hall i (List.mem_cons_self _ _)))
      (fun j hj => hall j (List.mem_cons_of_mem _ hj))

theorem filterPackages_ok_closed {items : List PackageRef}
    {rs : RequirementSet} {sys : List SystemPackage}
    (h : filterPackages items = .ok (rs, sys)) :
    rs = (items.filterMap refToReq).foldl RequirementSet.add ⟨[]⟩ ∧
      sys = uniques (items.filterMap refToSystem) ∧
      ∀ i ∈ items, i.isUnsupported = false := by
  by_cases hall : ∀ i ∈ items, i.isUnsupported = false
  · rw [filterPackages, filterPackagesAux_closed items ⟨[]⟩ [] hall] at h
    rw [Except.ok.injEq] at h
    rw [Prod.mk.injEq] at h
    exact ⟨h.1.symm, by rw [← h.2]; rfl, hall⟩
  · exfalso
    push_neg at hall
    rcases hall with ⟨i, hi, hiu⟩
    have : i.isUnsupported = true := by
      cases hb : i.isUnsupported with
      | false => exact absurd hb hiu
      | true => rfl
    rcases filterPackagesAux_error ⟨[]⟩ [] ⟨i, hi, this⟩ with ⟨t, ht⟩
    rw [filterPackages, ht] at h
    exact Except.noConfusion h

theorem filterPackages_names_nodup {items : List PackageRef}
    {rs : RequirementSet} {sys : List SystemPackage}
    (h : filterPackages items = .ok (rs, sys)) : rs.names.Nodup := by
  rw [(filterPackages_ok_closed h).1]
  exact foldl_add_names_nodup _ _ List.nodup_nil

theorem filterPackages_versionsNormalized {items : List PackageRef}
    {rs : RequirementSet} {sys : List SystemPackage}
    (h : filterPackages items = .ok (rs, sys))
    (hn : ∀ i ∈ items, i.specNormalized) : rs.versionsNormalized := by
  rw [(filterPackages_ok_closed h).1]
  refine foldl_add_versionsNormalized _ _ (fun r hr => absurd hr (List.not_mem_nil r)) ?_
  intro i hi
  rcases List.mem_filterMap.mp hi with ⟨ref, href, heq⟩
  have := hn ref href
  cases ref with
  | str n =>
    cases heq
    rfl
  | pair n v =>
    cases heq
    exact this
  | pkgConfig n v =>
    cases heq
    exact this
  | system p => cases heq
  | other t => cases heq

theorem mergeInto_disjoint_names (s o : RequirementSet) :
    ∀ n, n ∈ (s.mergeInto o).1.names → n ∈ (s.mergeInto o).2.names → False := by
  intro n h1 h2
  rw [mergeInto_fst_names] at h1
  unfold RequirementSet.names at h2
  rcases List.mem_map.mp h2 with ⟨r, hr, rfl⟩
  rw [mergeInto_snd] at hr
  have hp := List.mem_filter.mp hr
  have hc : s.containsName r.name = true := containsName_iff.mpr h1
  rw [hc] at hp
  simpa using hp.2

theorem pubOptionStep_foldl_libs (opts : List (String × OptionValue)) :
    ∀ acc : List String × List String × List (String × List String),
      (∀ kv ∈ opts, ∀ toks, kv.2 = OptionValue.iter toks → kv.1 ≠ "libs") →
      (opts.foldl pubOptionStep acc).2.1 = acc.2.1 := by
  induction opts with
  | nil => intro acc _; rfl
  | cons kv rest ih =>
    intro acc h
    rw [List.foldl_cons]
    rw [ih _ (fun kv' hkv' => h kv' (List.mem_cons_of_mem _ hkv'))]
    obtain ⟨k, v⟩ := kv
    cases v with
    | scalar t => rfl
    | iter toks =>
      have hk := h (k, .iter toks) (List.mem_cons_self _ _) toks rfl
      have hb : (k == "libs") = false := by simp [hk]
      unfold pubOptionStep
      by_cases hincl : (k == "includes") = true
      · simp [hincl]
      · simp [Bool.eq_false_iff.mpr hincl, hb]

theorem pubOptionStep_foldl_includes (opts : List (String × OptionValue)) :
    ∀ acc : List String × List String × List (String × List String),
      (∀ kv ∈ opts, ∀ toks, kv.2 = OptionValue.iter toks → kv.1 ≠ "includes") →
      (opts.foldl pubOptionStep acc).1 = acc.1 := by
  induction opts with
  | nil => intro acc _; rfl
  | cons kv rest ih =>
    intro acc h
    rw [List.foldl_cons]
    rw [ih _ (fun kv' hkv' => h kv' (List.mem_cons_of_mem _ hkv'))]
    obtain ⟨k, v⟩ := kv
    cases v with
    | scalar t => rfl
    | iter toks =>
      have hk := h (k, .iter toks) (List.mem_cons_self _ _) toks rfl
      have hb : (k == "includes") = false := by simp [hk]
      unfold pubOptionStep
      by_cases hlibs : (k == "libs") = true
      · simp [hlibs, hb]
      · simp [Bool.eq_false_iff.mpr hlibs, hb]

theorem processPackagesPublic_libs (pkgs : List SystemPackage) :
    ∀ (incl libs : List String) (ef : List (String × List String)),
      (∀ p ∈ pkgs, ∀ kv ∈ p.allOptions, ∀ toks,
        kv.2 = OptionValue.iter toks → kv.1 ≠ "libs") →
      (processPackagesPublic pkgs incl libs ef).2.1 = libs := by
  induction pkgs with
  | nil => intro incl libs ef _; rfl
  | cons p ps ih =>
    intro incl libs ef h
    unfold processPackagesPublic
    rw [ih _ _ _ (fun q hq => h q (List.mem_cons_of_mem _ hq))]
    exact pubOptionStep_foldl_libs p.allOptions (incl, libs, ef)
      (fun kv hkv => h p (List.mem_cons_self _ _) kv hkv)

theorem processPackagesPublic_includes (pkgs : List SystemPackage) :
    ∀ (incl libs : List String) (ef : List (String × List String)),
      (∀ p ∈ pkgs, ∀ kv ∈ p.allOptions, ∀ toks,
        kv.2 = OptionValue.iter toks → kv.1 ≠ "includes") →
      (processPackagesPublic pkgs incl libs ef).1 = incl := by
  induction pkgs with
  | nil => intro incl libs ef _; rfl
  | cons p ps ih =>
    intro incl libs ef h
    unfold processPackagesPublic
    rw [ih _ _ _ (fun q hq => h q (List.mem_cons_of_mem _ hq))]
    exact pubOptionStep_foldl_includes p.allOptions (incl, libs, ef)
      (fun kv hkv => h p (List.mem_cons_self _ _) kv hkv)

theorem processOptionsPrivate_no_core {opts : List (String × OptionValue)} :
    ∀ {lp out : List String},
      processOptionsPrivate lp opts = .ok out →
      (∀ kv ∈ opts, ∀ toks, kv.2 = OptionValue.iter toks →
        kv.1 ≠ "libs_private") →
      out = lp := by
  induction opts with
  | nil =>
    intro lp out h _
    unfold processOptionsPrivate at h
    rw [Except.ok.injEq] at h
    exact h.symm
  | cons kv rest ih =>
    intro lp out h hno
    obtain ⟨k, v⟩ := kv
    cases v with
    | scalar t =>
      unfold processOptionsPrivate at h
      exact ih h (fun kv' hkv' => hno kv' (List.mem_cons_of_mem _ hkv'))
    | iter toks =>
      have hk := hno (k, .iter toks) (List.mem_cons_self _ _) toks rfl
      have hb : (k == "libs_private") = false := by simp [hk]
      unfold processOptionsPrivate at h
      rw [hb] at h
      simp only [Bool.false_eq_true, if_false] at h
      split at h
      · exact Except.noConfusion h
      · exact Except.noConfusion h

theorem processPackagesPrivate_no_core {pkgs : List SystemPackage} :
    ∀ {lp out : List String},
      processPackagesPrivate lp pkgs = .ok out →
      (∀ p ∈ pkgs, ∀ kv ∈ p.allOptions, ∀ toks,
        kv.2 = OptionValue.iter toks → kv.1 ≠ "libs_private") →
      out = lp := by
  induction pkgs with
  | nil =>
    intro lp out h _
    unfold processPackagesPrivate at h
    rw [Except.ok.injEq] at h
    exact h.symm
  | cons p ps ih =>
    intro lp out h hno
    unfold processPackagesPrivate at h
    simp only [bind, Except.bind] at h
    cases h1 : processOptionsPrivate lp p.allOptions with
    | error e =>
      rw [h1] at h
      exact Except.noConfusion h
    | ok l =>
      rw [h1] at h
      have hl : l = lp := processOptionsPrivate_no_core h1
        (fun kv hkv => hno p (List.mem_cons_self _ _) kv hkv)
      subst hl
      exact ih h (fun q hq => hno q (List.mem_cons_of_mem _ hq))

theorem reqs_ext {a b : RequirementSet} (h : a.reqs = b.reqs) : a = b := by
  cases a
  cases b
  cases h
  rfl

theorem mem_names_iff {s : RequirementSet} {n : String} :
    n ∈ s.names ↔ ∃ r ∈ s.reqs, r.name = n := by
  unfold RequirementSet.names
  rw [List.mem_map]

theorem find_of_mem_names {s : RequirementSet} {n : String}
    (h : n ∈ s.names) : ∃ j, s.find n = some j ∧ j ∈ s.reqs ∧ j.name = n := by
  rcases mem_names_iff.mp h with ⟨r, hr, hn⟩
  have hsome : (s.reqs.find? (fun x => x.name == n)).isSome := by
    rw [List.find?_isSome]
    exact ⟨r, hr, beq_iff_eq.mpr hn⟩
  rcases Option.isSome_iff_exists.mp hsome with ⟨j, hj⟩
  refine ⟨j, hj, List.mem_of_find?_eq_some hj, ?_⟩
  have hp := List.find?_some hj
  exact beq_iff_eq.mp hp

theorem eq_of_same_name_nodup {l : List Requirement}
    (h : (l.map (fun r => r.name)).Nodup) {a b : Requirement}
    (ha : a ∈ l) (hb : b ∈ l) (hn : a.name = b.name) : a = b := by
  have h1 : l.find? (fun x => x.name == b.name) = some a :=
    find?_name_unique h ha hn
  have h2 : l.find? (fun x => x.name == b.name) = some b :=
    find?_name_unique h hb rfl
  rw [h1] at h2
  exact Option.some.injEq _ _ ▸ h2

theorem mem_names_update_right {o a : RequirementSet}
    (ha : a.names.Nodup) {n : String} (h : n ∈ a.names) :
    n ∈ (o.update a).names := by
  rw [update_names _ _ ha]
  by_cases hc : o.containsName n = true
  · exact List.mem_append.mpr (Or.inl (containsName_iff.mp hc))
  · rcases mem_names_iff.mp h with ⟨i, hi, rfl⟩
    refine List.mem_append.mpr (Or.inr ?_)
    refine List.mem_map.mpr ⟨i, ?_, rfl⟩
    rw [List.mem_filter]
    exact ⟨hi, by simpa using hc⟩

theorem foldl_mergeStep_empty :
    ∀ items : List Requirement,
      items.foldl RequirementSet.mergeStep ⟨[]⟩ = ⟨[]⟩ := by
  intro items
  induction items with
  | nil => rfl
  | cons i items ih =>
    rw [List.foldl_cons]
    have : RequirementSet.mergeStep ⟨[]⟩ i = ⟨[]⟩ := by
      unfold RequirementSet.mergeStep
      rfl
    rw [this, ih]

theorem mergeInto_empty_fst (o : RequirementSet) :
    ((⟨[]⟩ : RequirementSet).mergeInto o).1 = ⟨[]⟩ := by
  unfold RequirementSet.mergeInto
  rw [mergeInto_foldl_fst, foldl_mergeStep_empty]

theorem roundTripNone (req0 auto : RequirementSet)
    (hauto : auto.names.Nodup) :
    ((req0.mergeInto ((⟨[]⟩ : RequirementSet).update auto)).1.mergeInto
        ((⟨[]⟩ : RequirementSet).update auto)).1 =
      (req0.mergeInto ((⟨[]⟩ : RequirementSet).update auto)).1 ∧
    ((req0.mergeInto ((⟨[]⟩ : RequirementSet).update auto)).1.mergeInto
        ((⟨[]⟩ : RequirementSet).update auto)).2 =
      (req0.mergeInto ((⟨[]⟩ : RequirementSet).update auto)).2 := by
  have hempty : (⟨[]⟩ : RequirementSet).names.Nodup := List.nodup_nil
  have hpriv1nd : ((⟨[]⟩ : RequirementSet).update auto).names.Nodup :=
    update_names_nodup _ _ hempty hauto
  constructor
  · refine reqs_ext ?_
    rw [mergeInto_fst _ _ hpriv1nd, mergeInto_fst _ _ hpriv1nd, List.map_map]
    refine List.map_congr_left ?_
    intro r _
    exact mergeWith_idem _ r
  · refine reqs_ext ?_
    rw [mergeInto_snd, mergeInto_snd]
    refine List.filter_congr ?_
    intro r _
    rw [containsName_congr (mergeInto_fst_names req0 _) r.name]

theorem mergeWith_eq_of_find_none {o : RequirementSet} {e : Requirement}
    (h : o.find e.name = none) : o.mergeWith e = e := by
  unfold RequirementSet.mergeWith
  rw [h]

theorem mergeWith_eq_of_find_some {o : RequirementSet} {e i : Requirement}
    (h : o.find e.name = some i) : o.mergeWith e = e.merge i := by
  unfold RequirementSet.mergeWith
  rw [h]

theorem find_some_facts {s : RequirementSet} {n : String} {j : Requirement}
    (h : s.find n = some j) : j ∈ s.reqs ∧ j.name = n := by
  unfold RequirementSet.find at h
  have hp := List.find?_some h
  exact ⟨List.mem_of_find?_eq_some h, beq_iff_eq.mp hp⟩

theorem roundTrip (req0 priv0 auto : RequirementSet)
    (hpriv0 : priv0.names.Nodup) (hauto : auto.names.Nodup)
    (hnorm : auto.versionsNormalized) :
    ((req0.mergeInto (priv0.update auto)).1.mergeInto
        ((req0.mergeInto (priv0.update auto)).2.update auto)).1 =
      (req0.mergeInto (priv0.update auto)).1 ∧
    ((req0.mergeInto (priv0.update auto)).1.mergeInto
        ((req0.mergeInto (priv0.update auto)).2.update auto)).2 =
      (req0.mergeInto (priv0.update auto)).2 := by
  set priv1 := priv0.update auto with hpriv1def
  have hpriv1nd : priv1.names.Nodup := update_names_nodup _ _ hpriv0 hauto
  have hpriv1reqs : priv1.reqs =
      priv0.reqs.map (RequirementSet.mergeWith auto) ++
        auto.reqs.filter (fun i => !(priv0.containsName i.name)) :=
    update_reqs _ _ hauto
  set s1 := (req0.mergeInto priv1).1 with hs1def
  set o1 := (req0.mergeInto priv1).2 with ho1def
  have hs1reqs : s1.reqs = req0.reqs.map (RequirementSet.mergeWith priv1) :=
    mergeInto_fst _ _ hpriv1nd
  have hs1names : s1.names = req0.names := mergeInto_fst_names _ _
  have ho1reqs : o1.reqs =
      priv1.reqs.filter (fun r => !(req0.containsName r.name)) :=
    mergeInto_snd _ _
  have ho1nd : o1.names.Nodup := by
    have hn : o1.names =
        (priv1.reqs.filter (fun r => !(req0.containsName r.name))).map
          (fun x => x.name) := by
      unfold RequirementSet.names
      rw [ho1reqs]
    rw [hn]
    exact hpriv1nd.sublist (List.Sublist.map _ (List.filter_sublist _))
  have hpriv3nd : (o1.update auto).names.Nodup :=
    update_names_nodup _ _ ho1nd hauto
  have hpriv3reqs : (o1.update auto).reqs =
      o1.reqs.map (RequirementSet.mergeWith auto) ++
        auto.reqs.filter (fun i => !(o1.containsName i.name)) :=
    update_reqs _ _ hauto
  -- entries of priv1 absorb matching auto entries
  have habsorb : ∀ rr ∈ priv1.reqs, ∀ i ∈ auto.reqs, i.name = rr.name →
      rr.merge i = rr := by
    intro rr hrr i hi hname
    rw [hpriv1reqs] at hrr
    rcases List.mem_append.mp hrr with hr0 | hr0
    · rcases List.mem_map.mp hr0 with ⟨r0, hr0m, rfl⟩
      have hfind : auto.find r0.name = some i := by
        unfold RequirementSet.find
        refine find?_name_unique hauto hi ?_
        rw [hname, mergeWith_name]
      have hrw : RequirementSet.mergeWith auto r0 = r0.merge i := by
        unfold RequirementSet.mergeWith
        rw [hfind]
      rw [hrw]
      exact Requirement.merge_absorb uniques_specAnd
        (fun x hx => mem_specAnd.mpr (Or.inr hx))
    · have hrrauto : rr ∈ auto.reqs := (List.mem_filter.mp hr0).1
      have hieq : i = rr := eq_of_same_name_nodup hauto hi hrrauto hname
      subst hieq
      exact Requirement.merge_absorb (hnorm i hrrauto) (fun x hx => hx)
  -- comparisons of a matching auto entry already sit in the priv1 entry
  have hsubset : ∀ rr ∈ priv1.reqs, ∀ i ∈ auto.reqs, i.name = rr.name →
      ∀ x ∈ i.version, x ∈ rr.version := by
    intro rr hrr i hi hname x hx
    rw [hpriv1reqs] at hrr
    rcases List.mem_append.mp hrr with hr0 | hr0
    · rcases List.mem_map.mp hr0 with ⟨r0, hr0m, rfl⟩
      have hfind : auto.find r0.name = some i := by
        unfold RequirementSet.find
        refine find?_name_unique hauto hi ?_
        rw [hname, mergeWith_name]
      have hrw : RequirementSet.mergeWith auto r0 = r0.merge i := by
        unfold RequirementSet.mergeWith
        rw [hfind]
      rw [hrw]
      exact mem_specAnd.mpr (Or.inr hx)
    · have hrrauto : rr ∈ auto.reqs := (List.mem_filter.mp hr0).1
      have hieq : i = rr := eq_of_same_name_nodup hauto hi hrrauto hname
      subst hieq
      exact hx
  -- F1: entries of s1 are fixed points of merging with priv3
  have hF1 : ∀ e ∈ s1.reqs, RequirementSet.mergeWith (o1.update auto) e = e := by
    intro e he
    rw [hs1reqs] at he
    rcases List.mem_map.mp he with ⟨e0, he0, rfl⟩
    have hem : e0.name ∈ req0.names := mem_names_iff.mpr ⟨e0, he0, rfl⟩
    have hmapnone : (o1.reqs.map (RequirementSet.mergeWith auto)).find?
        (fun x => x.name == e0.name) = none := by
      refine find?_name_none ?_
      intro r' hr'
      rcases List.mem_map.mp hr' with ⟨r'', hr'', rfl⟩
      rw [mergeWith_name]
      intro hcontra
      have hr''o1 : r'' ∈ priv1.reqs.filter
          (fun r => !(req0.containsName r.name)) := ho1reqs ▸ hr''
      have hp := List.mem_filter.mp hr''o1
      have hct : req0.containsName r''.name = true := by
        rw [hcontra]
        exact containsName_iff.mpr hem
      rw [hct] at hp
      simpa using hp.2
    have hfind3 : (o1.update auto).find
        (RequirementSet.mergeWith priv1 e0).name =
        (auto.reqs.filter (fun i => !(o1.containsName i.name))).find?
          (fun x => x.name == e0.name) := by
      unfold RequirementSet.find
      rw [mergeWith_name, hpriv3reqs, List.find?_append, hmapnone,
        Option.none_or]
    cases hffind : (auto.reqs.filter
        (fun i => !(o1.containsName i.name))).find?
        (fun x => x.name == e0.name) with
    | none =>
      exact mergeWith_eq_of_find_none (by rw [hfind3, hffind])
    | some i =>
      rw [mergeWith_eq_of_find_some (by rw [hfind3, hffind])]
      have hiauto : i ∈ auto.reqs :=
        (List.mem_filter.mp (List.mem_of_find?_eq_some hffind)).1
      have hiname : i.name = e0.name := by
        have hp := List.find?_some hffind
        exact beq_iff_eq.mp hp
      have hjex : e0.name ∈ priv1.names :=
        mem_names_update_right hauto (mem_names_iff.mpr ⟨i, hiauto, hiname⟩)
      rcases find_of_mem_names hjex with ⟨j, hjfind, hjmem, hjname⟩
      have hee : RequirementSet.mergeWith priv1 e0 = e0.merge j := by
        unfold RequirementSet.mergeWith
        rw [hjfind]
      rw [hee]
      refine Requirement.merge_absorb uniques_specAnd ?_
      intro x hx
      refine mem_specAnd.mpr (Or.inr ?_)
      exact hsubset j hjmem i hiauto (hiname.trans hjname.symm) x hx
  -- F2: entries of o1 are fixed points of merging with auto
  have hF2 : ∀ r'' ∈ o1.reqs, RequirementSet.mergeWith auto r'' = r'' := by
    intro r'' hr''
    cases hfa : auto.find r''.name with
    | none => exact mergeWith_eq_of_find_none hfa
    | some i =>
      rw [mergeWith_eq_of_find_some hfa]
      have hfacts := find_some_facts hfa
      have hr''p : r'' ∈ priv1.reqs :=
        (List.mem_filter.mp (ho1reqs ▸ hr'')).1
      exact habsorb r'' hr''p i hfacts.1 hfacts.2
  constructor
  · refine reqs_ext ?_
    rw [mergeInto_fst _ _ hpriv3nd]
    calc s1.reqs.map (RequirementSet.mergeWith (o1.update auto))
        = s1.reqs.map id := List.map_congr_left hF1
    _ = s1.reqs := List.map_id _
  · refine reqs_ext ?_
    rw [mergeInto_snd, hpriv3reqs, List.filter_append]
    have hfilter1 : (o1.reqs.map (RequirementSet.mergeWith auto)).filter
        (fun r => !(s1.containsName r.name)) =
        o1.reqs.map (RequirementSet.mergeWith auto) := by
      rw [List.filter_eq_self]
      intro r' hr'
      rcases List.mem_map.mp hr' with ⟨r'', hr'', rfl⟩
      rw [mergeWith_name, containsName_congr hs1names]
      have hr''o1 : r'' ∈ priv1.reqs.filter
          (fun r => !(req0.containsName r.name)) := ho1reqs ▸ hr''
      exact (List.mem_filter.mp hr''o1).2
    have hfilter2 : (auto.reqs.filter
        (fun i => !(o1.containsName i.name))).filter
        (fun r => !(s1.containsName r.name)) = [] := by
      rw [List.filter_eq_nil_iff]
      intro i hi
      have hino1 : o1.containsName i.name = false := by
        have := (List.mem_filter.mp hi).2
        simpa using this
      have hiauto : i ∈ auto.reqs := (List.mem_filter.mp hi).1
      have hreq : req0.containsName i.name = true := by
        by_contra hcon
        have hip1 : i.name ∈ priv1.names :=
          mem_names_update_right hauto (mem_names_iff.mpr ⟨i, hiauto, rfl⟩)
        rcases mem_names_iff.mp hip1 with ⟨rr, hrr, hrrname⟩
        have hro1 : rr ∈ o1.reqs := by
          rw [ho1reqs, List.mem_filter]
          refine ⟨hrr, ?_⟩
          rw [hrrname]
          simpa using hcon
        have : o1.containsName i.name = true := by
          rw [← hrrname]
          exact List.any_eq_true.mpr ⟨rr, hro1, by simp⟩
        rw [this] at hino1
        cases hino1
      rw [containsName_congr hs1names, hreq]
      simp
    rw [hfilter1, hfilter2, List.append_nil]
    calc o1.reqs.map (RequirementSet.mergeWith auto)
        = o1.reqs.map id := List.map_congr_left hF2
    _ = o1.reqs := List.map_id _

theorem filterPackages_sys_mem {items : List PackageRef}
    {rs : RequirementSet} {sys : List SystemPackage}
    (h : filterPackages items = .ok (rs, sys)) :
    ∀ p ∈ sys, ∃ ref ∈ items, refToSystem ref = some p := by
  intro p hp
  rw [(filterPackages_ok_closed h).2.1, mem_uniques] at hp
  exact List.mem_filterMap.mp hp

theorem findDup_spec {names : List (Option String)}
    (h : ∃ n, 2 ≤ names.count n) :
    ∃ n', findDup names = some n' ∧ 2 ≤ names.count n' := by
  obtain ⟨n, hn⟩ := h
  have hmem : n ∈ names := List.count_pos_iff.mp (by omega)
  have hex : ∃ x, x ∈ uniques names ∧
      (fun m => decide (1 < names.count m)) x = true :=
    ⟨n, mem_uniques.mpr hmem, by
      simp only [decide_eq_true_eq]
      omega⟩
  have hsome : ((uniques names).find?
      (fun m => decide (1 < names.count m))).isSome := by
    rw [List.find?_isSome]
    exact hex
  rcases Option.isSome_iff_exists.mp hsome with ⟨n', hn'⟩
  refine ⟨n', hn', ?_⟩
  have := List.find?_some hn'
  simp only [decide_eq_true_eq] at this
  omega

/-! ### Claim theorems -/

/-- C1 (what the code actually does at the spec's scenario): for a
descriptor with `libs=[A]` where `A` forwards library `B` and link
option `-DFOO`, and `libs_private` unset, the resolver leaves
`libs_private` empty — the guard `i not in libs` filters the iterated
parent libraries, so a public library never contributes its forwarded
libraries, contradicting the code's own comment — while `-DFOO` does
reach the private link options.  The spec expects `libs_private=[B]`. -/
theorem c1_forwarded_libs_eval :
    (processInputs
        ⟨fun n => if n = "A" then some ⟨["B"], ["-DFOO"]⟩ else none,
         fun _ => []⟩
        { name := some "foo", libs := some ["A"] }).toOption.map
      (fun p => (p.1.libs, p.1.libs_private, p.1.ldflags_private)) =
    some (["A"], [], ["-DFOO"]) := by decide

/-- C2 counterexample: with `libs=[A]` and `libs_private=[C]` where `C`
forwards `A`, the resolver puts `A` into the resolved `libs_private`
(the forwarded libraries themselves are never filtered against `libs`),
so the resolved `libs` and `libs_private` are not disjoint. -/
theorem c2_disjoint_counterexample :
    (processInputs
        ⟨fun n => if n = "C" then some ⟨["A"], []⟩ else none, fun _ => []⟩
        { name := some "foo", libs := some ["A"],
          libs_private := some ["C"] }).toOption.map
      (fun p => (p.1.libs, p.1.libs_private)) = some (["A"], ["A", "C"]) ∧
    ¬ (∀ x ∈ (["A"] : List String), x ∉ (["A", "C"] : List String)) := by
  exact ⟨by decide, by decide⟩

/-- C2 amended: the resolved `libs` and `libs_private` of a descriptor
are disjoint provided the explicitly declared lists are disjoint, no
declared private library forwards a library that is in `libs`, and no
system package contributes `libs`/`libs_private` core options. -/
theorem c2_libs_disjoint (g : BuildGraph) (d : PkgConfigInfo)
    (r : ProcessResult) (d' : PkgConfigInfo)
    (h : processInputs g d = .ok (r, d'))
    (h1 : ∀ x ∈ d.libs.getD [], x ∉ d.libs_private.getD [])
    (h2 : ∀ i ∈ d.libs_private.getD [], ∀ fa, g.forwardArgs i = some fa →
      ∀ x ∈ fa.libs, x ∉ d.libs.getD [])
    (h3 : ∀ p ∈ (d.requires.getD (⟨[]⟩, [])).2, ∀ kv ∈ p.allOptions,
      ∀ toks, kv.2 = OptionValue.iter toks → kv.1 ≠ "libs")
    (h4a : ∀ p ∈ (d.requires_private.getD (⟨[]⟩, [])).2, ∀ kv ∈ p.allOptions,
      ∀ toks, kv.2 = OptionValue.iter toks → kv.1 ≠ "libs_private")
    (h4b : ∀ l : String, ∀ ref ∈ g.packageDeps l, ∀ p,
      refToSystem ref = some p → ∀ kv ∈ p.allOptions, ∀ toks,
        kv.2 = OptionValue.iter toks → kv.1 ≠ "libs_private") :
    ∀ x ∈ r.libs, x ∉ r.libs_private := by
  simp only [processInputs, bind, Except.bind, pure, Except.pure] at h
  split at h
  case h_1 => exact Except.noConfusion h
  case h_2 =>
    rename_i p heq
    split at h
    case h_1 => exact Except.noConfusion h
    case h_2 =>
      rename_i xs hsplit1
      split at h
      case h_1 => exact Except.noConfusion h
      case h_2 =>
        rename_i ys hsplit2
        split at h
        case h_1 => exact Except.noConfusion h
        case h_2 =>
          rename_i zs hsplit3
          split at h
          case h_1 => exact Except.noConfusion h
          case h_2 =>
            rename_i lp hpriv
            rw [Except.ok.injEq, Prod.mk.injEq] at h
            obtain ⟨hr, hd⟩ := h
            subst hr
            intro x hx hy
            rw [show (processPackagesPublic (d.requires.getD (⟨[]⟩, [])).2
                (d.includes.getD []) (d.libs.getD []) []).2.1 = d.libs.getD []
              from processPackagesPublic_libs _ _ _ _ h3] at hx
            have hlp : lp = uniques
                ((((d.libs.getD [] ++ d.libs_private.getD []).filter
                  (fun i => !((d.libs.getD []).contains i))).map
                  (fun i => match g.forwardArgs i with
                    | some fa => fa.libs
                    | none => [])).flatten ++ d.libs_private.getD []) := by
              refine processPackagesPrivate_no_core hpriv ?_
              intro q hq kv hkv toks htoks
              rcases List.mem_append.mp hq with hq' | hq'
              · exact h4a q hq' kv hkv toks htoks
              · rcases filterPackages_sys_mem heq q hq' with ⟨ref, href, hrefq⟩
                rcases List.mem_flatten.mp href with ⟨deps, hdeps, hrefdeps⟩
                rcases List.mem_map.mp hdeps with ⟨l, _, rfl⟩
                exact h4b l ref hrefdeps q hrefq kv hkv toks htoks
            rw [hlp] at hy
            rw [mem_uniques] at hy
            rcases List.mem_append.mp hy with hfwd | hlp0
            · rcases List.mem_flatten.mp hfwd with ⟨l', hl', hxl'⟩
              rcases List.mem_map.mp hl' with ⟨i, hi, rfl⟩
              have hif := List.mem_filter.mp hi
              have hinotlibs : i ∉ d.libs.getD [] := by
                have := hif.2
                simpa using this
              have hilp0 : i ∈ d.libs_private.getD [] := by
                rcases List.mem_append.mp hif.1 with h' | h'
                · exact absurd h' hinotlibs
                · exact h'
              cases hfa : g.forwardArgs i with
              | none =>
                rw [hfa] at hxl'
                cases hxl'
              | some fa =>
                rw [hfa] at hxl'
                exact h2 i hilp0 fa hfa x hxl' hx
            · exact h1 x hx hlp0

/-- Witness for the amended C2: `libs=[A]`, `libs_private=[C]`, no
forwarding; the resolver succeeds and `A` is not in the resolved
private list `[C]`. -/
theorem c2_libs_disjoint_witness :
    processInputs (⟨fun _ => none, fun _ => []⟩ : BuildGraph)
        { name := some "foo", libs := some ["A"], libs_private := some ["C"] } =
      .ok ({ name := some "foo", desc_name := some "foo",
             desc := "foo library", url := none, version := none,
             requires := [], requires_private := [], conflicts := [],
             includes := [], libs := ["A"], libs_private := ["C"],
             extra_fields := [], cflags := [], ldflags := [],
             ldflags_private := [] },
           { name := some "foo", libs := some ["A"],
             libs_private := some ["C"] }) ∧
    ("A" : String) ∉ (["C"] : List String) := by
  refine ⟨by decide, ?_⟩
  exact c2_libs_disjoint
    (⟨fun _ => none, fun _ => []⟩ : BuildGraph)
    { name := some "foo", libs := some ["A"], libs_private := some ["C"] }
    { name := some "foo", desc_name := some "foo",
      desc := "foo library", url := none, version := none,
      requires := [], requires_private := [], conflicts := [],
      includes := [], libs := ["A"], libs_private := ["C"],
      extra_fields := [], cflags := [], ldflags := [],
      ldflags_private := [] }
    { name := some "foo", libs := some ["A"], libs_private := some ["C"] }
    (by decide)
    (by decide)
    (fun i hi fa hfa => Option.noConfusion hfa)
    (fun p hp => absurd hp (List.not_mem_nil p))
    (fun p hp => absurd hp (List.not_mem_nil p))
    (fun l ref href => absurd href (List.not_mem_nil ref))
    "A" (by decide)

/-- C8 counterexample: with two descriptors both named `foo`,
finalization fails before writing any file, but the raised error's
message names only `foo` — it does not report the count 2. -/
theorem c8_duplicate_counterexample :
    finalize ⟨fun _ => none, fun _ => []⟩ ⟨[]⟩
        ⟨"proj", none, [], [],
          [{ name := some "foo" }, { name := some "foo" }]⟩ =
      .error (.duplicateName "duplicate pkg-config package 'foo'") ∧
    ('2' ∈ "duplicate pkg-config package 'foo'".toList → False) := by
  exact ⟨by decide, by decide⟩

/-- C8 amended: when, after auto-fill, two or more descriptors share a
name, finalization fails with the duplicate-name error naming one such
duplicated name, and no descriptor file is produced (the error is
raised before the write loop). -/
theorem c8_duplicate_name (g : BuildGraph) (env : Env) (b : BuildState)
    (h : ∃ n, 2 ≤ ((b.pkgConfig.map (autoFill b)).map
      (fun i => i.name)).count n) :
    ∃ n', 2 ≤ ((b.pkgConfig.map (autoFill b)).map
        (fun i => i.name)).count n' ∧
      finalize g env b = .error (.duplicateName
        ("duplicate pkg-config package '" ++ optStr n' ++ "'")) := by
  rcases findDup_spec h with ⟨n', hfind, hcount⟩
  refine ⟨n', hcount, ?_⟩
  simp only [finalize]
  rw [hfind]

/-- Witness for the amended C8: the two-`foo` build has a duplicated
name and finalization reports it. -/
theorem c8_duplicate_name_witness :
    (∃ n, 2 ≤ ((([{ name := some "foo" }, { name := some "foo" }] :
        List PkgConfigInfo).map
        (autoFill ⟨"proj", none, [], [],
          [{ name := some "foo" }, { name := some "foo" }]⟩)).map
      (fun i => i.name)).count n) ∧
    ∃ n', 2 ≤ ((([{ name := some "foo" }, { name := some "foo" }] :
        List PkgConfigInfo).map
        (autoFill ⟨"proj", none, [], [],
          [{ name := some "foo" }, { name := some "foo" }]⟩)).map
      (fun i => i.name)).count n' ∧
      finalize ⟨fun _ => none, fun _ => []⟩ ⟨[]⟩
          ⟨"proj", none, [], [],
            [{ name := some "foo" }, { name := some "foo" }]⟩ =
        .error (.duplicateName
          ("duplicate pkg-config package '" ++ optStr n' ++ "'")) :=
  ⟨⟨some "foo", by decide⟩,
    c8_duplicate_name ⟨fun _ => none, fun _ => []⟩ ⟨[]⟩
      ⟨"proj", none, [], [],
        [{ name := some "foo" }, { name := some "foo" }]⟩
      ⟨some "foo", by decide⟩⟩

set_option maxHeartbeats 2000000 in
/-- C7 amended: resolving a descriptor a second time, over the state
left behind by a successful first resolution, yields the same resolved
fields — and hence byte-identical serialized output — provided the
declared private requirement names are unique (a dict invariant), no
public system package contributes `includes`/`libs` core options (those
extends alias the stored lists), and each dependency reference's
specifier set is duplicate-free (a Python set invariant). -/
theorem c7_resolve_idempotent (g : BuildGraph) (env : Env)
    (d : PkgConfigInfo) (r : ProcessResult) (d1 : PkgConfigInfo)
    (h : processInputs g d = .ok (r, d1))
    (hprivnd : (d.requires_private.getD (⟨[]⟩, [])).1.names.Nodup)
    (hpub : ∀ p ∈ (d.requires.getD (⟨[]⟩, [])).2, ∀ kv ∈ p.allOptions,
      ∀ toks, kv.2 = OptionValue.iter toks → kv.1 ≠ "includes" ∧ kv.1 ≠ "libs")
    (hg : ∀ l : String, ∀ ref ∈ g.packageDeps l, ref.specNormalized) :
    processInputs g d1 = .ok (r, d1) ∧
    write g env d = .ok (writeOutput env r, d1) ∧
    write g env d1 = .ok (writeOutput env r, d1) := by
  have hmain : processInputs g d1 = .ok (r, d1) := by
      simp only [processInputs, bind, Except.bind, pure, Except.pure] at h
      split at h
      case h_1 => exact Except.noConfusion h
      case h_2 =>
        rename_i p heq
        split at h
        case h_1 => exact Except.noConfusion h
        case h_2 =>
          rename_i xs hsplit1
          split at h
          case h_1 => exact Except.noConfusion h
          case h_2 =>
            rename_i ys hsplit2
            split at h
            case h_1 => exact Except.noConfusion h
            case h_2 =>
              rename_i zs hsplit3
              split at h
              case h_1 => exact Except.noConfusion h
              case h_2 =>
                rename_i lp hprivOk
                rw [Except.ok.injEq, Prod.mk.injEq] at h
                obtain ⟨hr, hd⟩ := h
                subst hr
                subst hd
                -- facts from hpub
                have hincEq : (processPackagesPublic (d.requires.getD (⟨[]⟩, [])).2
                    (d.includes.getD []) (d.libs.getD []) []).1 = d.includes.getD [] :=
                  processPackagesPublic_includes _ _ _ _
                    (fun p hp kv hkv toks ht => (hpub p hp kv hkv toks ht).1)
                have hlibsEq : (processPackagesPublic (d.requires.getD (⟨[]⟩, [])).2
                    (d.includes.getD []) (d.libs.getD []) []).2.1 = d.libs.getD [] :=
                  processPackagesPublic_libs _ _ _ _
                    (fun p hp kv hkv toks ht => (hpub p hp kv hkv toks ht).2)
                have hE1 : (match d.includes with
                    | some (hd :: tl) => some (processPackagesPublic
                        (d.requires.getD (⟨[]⟩, [])).2 (d.includes.getD [])
                        (d.libs.getD []) []).1
                    | x => x) = d.includes := by
                  cases hdi : d.includes with
                  | none => rfl
                  | some l =>
                    cases l with
                    | nil => rfl
                    | cons a t =>
                      rw [hdi] at hincEq
                      show some (processPackagesPublic
                          (d.requires.getD (⟨[]⟩, [])).2
                          ((some (a :: t)).getD []) (d.libs.getD []) []).1 =
                        some (a :: t)
                      rw [hincEq]
                      rfl
                have hE2 : (match d.libs with
                    | some (hd :: tl) => some (processPackagesPublic
                        (d.requires.getD (⟨[]⟩, [])).2 (d.includes.getD [])
                        (d.libs.getD []) []).2.1
                    | x => x) = d.libs := by
                  cases hdl : d.libs with
                  | none => rfl
                  | some l =>
                    cases l with
                    | nil => rfl
                    | cons a t =>
                      rw [hdl] at hlibsEq
                      show some (processPackagesPublic
                          (d.requires.getD (⟨[]⟩, [])).2
                          (d.includes.getD []) ((some (a :: t)).getD []) []).2.1 =
                        some (a :: t)
                      rw [hlibsEq]
                      rfl
                have hautond : p.1.names.Nodup := filterPackages_names_nodup heq
                have hautonorm : p.1.versionsNormalized := by
                  refine filterPackages_versionsNormalized heq ?_
                  intro i hi
                  rcases List.mem_flatten.mp hi with ⟨deps, hdeps, hid⟩
                  rcases List.mem_map.mp hdeps with ⟨l, _, rfl⟩
                  exact hg l i hid
                have hE3 : (Option.map (fun pp => (((d.requires.getD (⟨[]⟩, [])).1.mergeInto
                      ((d.requires_private.getD (⟨[]⟩, [])).1.update p.1)).1, pp.2))
                    d.requires).getD (⟨[]⟩, []) =
                    (((d.requires.getD (⟨[]⟩, [])).1.mergeInto
                      ((d.requires_private.getD (⟨[]⟩, [])).1.update p.1)).1,
                     (d.requires.getD (⟨[]⟩, [])).2) := by
                  cases hdr : d.requires with
                  | some q => rfl
                  | none =>
                    simp only [Option.map_none', Option.getD_none, mergeInto_empty_fst]
                cases hdp : d.requires_private with
                | some qp =>
                  rw [hdp] at hsplit1 hsplit2 hprivOk hprivnd hE3
                  simp only [Option.getD_some] at hsplit1 hsplit2 hprivOk hprivnd hE3
                  have hrt := roundTrip (d.requires.getD (⟨[]⟩, [])).1 qp.1 p.1
                    hprivnd hautond hautonorm
                  simp only [processInputs, bind, Except.bind, pure, Except.pure,
                    hdp, Option.map_some', Option.getD_some]
                  rw [hE1, hE2, hE3]
                  simp only [heq]
                  rw [hrt.1, hrt.2]
                  simp only [hsplit1, hsplit2, hsplit3, hprivOk]
                  rw [hE1, hE2, Option.map_map]
                  rfl
                | none =>
                  rw [hdp] at hsplit1 hsplit2 hprivOk hE3
                  simp only [Option.getD_none] at hsplit1 hsplit2 hprivOk hE3
                  have hrt := roundTripNone (d.requires.getD (⟨[]⟩, [])).1 p.1 hautond
                  simp only [processInputs, bind, Except.bind, pure, Except.pure,
                    hdp, Option.map_none', Option.getD_none]
                  rw [hE1, hE2, hE3]
                  simp only [heq]
                  rw [hrt.1, hrt.2]
                  simp only [hsplit1, hsplit2, hsplit3, hprivOk]
                  rw [hE1, hE2, Option.map_map]
                  rfl
  refine ⟨hmain, ?_, ?_⟩
  · unfold write
    rw [h]
    rfl
  · unfold write
    rw [hmain]
    rfl

/-- C7 counterexample: a descriptor whose public requires carry a
system package contributing a `libs` option list is not resolved
idempotently — the `result['libs'].extend(...)` aliases the stored
`libs` list, so the second resolution sees `[A, L]` and produces
`[A, L, L]`, and the two serialized outputs differ. -/
theorem c7_idempotence_counterexample :
    ((processInputs (⟨fun _ => none, fun _ => []⟩ : BuildGraph)
        { name := some "foo", libs := some ["A"],
          requires := some (⟨[]⟩,
            [⟨"S", [("libs", .iter ["L"])]⟩]) }).toOption.bind fun p =>
      (processInputs (⟨fun _ => none, fun _ => []⟩ : BuildGraph)
          p.2).toOption.map fun q =>
        (p.1.libs, q.1.libs,
          writeOutput ⟨[("prefix", "/usr/local")]⟩ p.1 ==
            writeOutput ⟨[("prefix", "/usr/local")]⟩ q.1))
    = some (["A", "L"], ["A", "L", "L"], false) := by decide

/-- Witness for the amended C7: a descriptor with one public and one
private requirement and no system packages resolves to a fixed point,
and both serializations agree. -/
theorem c7_resolve_idempotent_witness :
    processInputs (⟨fun _ => none, fun _ => []⟩ : BuildGraph)
        { requires := some (⟨[⟨"pub", []⟩]⟩, []),
          requires_private := some (⟨[⟨"priv", []⟩]⟩, []) } =
      .ok ({ name := none, desc_name := none, desc := "None library",
             url := none, version := none,
             requires := [⟨"pub", none⟩],
             requires_private := [⟨"priv", none⟩],
             conflicts := [], includes := [], libs := [],
             libs_private := [], extra_fields := [], cflags := [],
             ldflags := [], ldflags_private := [] },
           { requires := some (⟨[⟨"pub", []⟩]⟩, []),
             requires_private := some (⟨[⟨"priv", []⟩]⟩, []) }) ∧
    (processInputs (⟨fun _ => none, fun _ => []⟩ : BuildGraph)
        { requires := some (⟨[⟨"pub", []⟩]⟩, []),
          requires_private := some (⟨[⟨"priv", []⟩]⟩, []) } =
      .ok ({ name := none, desc_name := none, desc := "None library",
             url := none, version := none,
             requires := [⟨"pub", none⟩],
             requires_private := [⟨"priv", none⟩],
             conflicts := [], includes := [], libs := [],
             libs_private := [], extra_fields := [], cflags := [],
             ldflags := [], ldflags_private := [] },
           { requires := some (⟨[⟨"pub", []⟩]⟩, []),
             requires_private := some (⟨[⟨"priv", []⟩]⟩, []) }) ∧
     write (⟨fun _ => none, fun _ => []⟩ : BuildGraph)
         ⟨[("prefix", "/usr/local")]⟩
         { requires := some (⟨[⟨"pub", []⟩]⟩, []),
           requires_private := some (⟨[⟨"priv", []⟩]⟩, []) } =
       .ok (writeOutput ⟨[("prefix", "/usr/local")]⟩
             { name := none, desc_name := none, desc := "None library",
               url := none, version := none,
               requires := [⟨"pub", none⟩],
               requires_private := [⟨"priv", none⟩],
               conflicts := [], includes := [], libs := [],
               libs_private := [], extra_fields := [], cflags := [],
               ldflags := [], ldflags_private := [] },
         { requires := some (⟨[⟨"pub", []⟩]⟩, []),
           requires_private := some (⟨[⟨"priv", []⟩]⟩, []) }) ∧
     write (⟨fun _ => none, fun _ => []⟩ : BuildGraph)
         ⟨[("prefix", "/usr/local")]⟩
         { requires := some (⟨[⟨"pub", []⟩]⟩, []),
           requires_private := some (⟨[⟨"priv", []⟩]⟩, []) } =
       .ok (writeOutput ⟨[("prefix", "/usr/local")]⟩
             { name := none, desc_name := none, desc := "None library",
               url := none, version := none,
               requires := [⟨"pub", none⟩],
               requires_private := [⟨"priv", none⟩],
               conflicts := [], includes := [], libs := [],
               libs_private := [], extra_fields := [], cflags := [],
               ldflags := [], ldflags_private := [] },
         { requires := some (⟨[⟨"pub", []⟩]⟩, []),
           requires_private := some (⟨[⟨"priv", []⟩]⟩, []) })) :=
  ⟨by decide,
    c7_resolve_idempotent (⟨fun _ => none, fun _ => []⟩ : BuildGraph)
      ⟨[("prefix", "/usr/local")]⟩
      { requires := some (⟨[⟨"pub", []⟩]⟩, []),
        requires_private := some (⟨[⟨"priv", []⟩]⟩, []) }
      { name := none, desc_name := none, desc := "None library",
        url := none, version := none,
        requires := [⟨"pub", none⟩],
        requires_private := [⟨"priv", none⟩],
        conflicts := [], includes := [], libs := [],
        libs_private := [], extra_fields := [], cflags := [],
        ldflags := [], ldflags_private := [] }
      { requires := some (⟨[⟨"pub", []⟩]⟩, []),
        requires_private := some (⟨[⟨"priv", []⟩]⟩, []) }
      (by decide) (by decide)
      (fun p hp => absurd hp (List.not_mem_nil p))
      (fun l ref href => absurd href (List.not_mem_nil ref))⟩

/-- C3: `RequirementSet.merge_into(other)` merges each item of `other`
whose name exists in `self` into `self`'s entry by intersecting the
constraints, and removes it from `other`; items of `other` with no
matching name in `self` are left in `other` unchanged and in order. -/
theorem c3_mergeInto_spec (s o : RequirementSet) (ho : o.names.Nodup) :
    (s.mergeInto o).1.reqs =
      s.reqs.map (fun e =>
        match o.find e.name with
        | some i => e.merge i
        | none => e) ∧
    (s.mergeInto o).2.reqs =
      o.reqs.filter (fun r => !(s.containsName r.name)) :=
  ⟨by rw [mergeInto_fst s o ho]; rfl, mergeInto_snd s o⟩

/-- Witness for C3 at the spec's example: `self={A:">=1.0"}`,
`other={A:"<2.0", B:">=3.0"}` gives `self={A:">=1.0,<2.0"}` and
`other={B:">=3.0"}`. -/
theorem c3_mergeInto_spec_witness :
    ((⟨[⟨"A", [("<", "2.0")]⟩, ⟨"B", [(">=", "3.0")]⟩]⟩ :
        RequirementSet).names.Nodup) ∧
    ((⟨[⟨"A", [(">=", "1.0")]⟩]⟩ : RequirementSet).mergeInto
        ⟨[⟨"A", [("<", "2.0")]⟩, ⟨"B", [(">=", "3.0")]⟩]⟩).1.reqs =
      [⟨"A", [(">=", "1.0"), ("<", "2.0")]⟩] ∧
    ((⟨[⟨"A", [(">=", "1.0")]⟩]⟩ : RequirementSet).mergeInto
        ⟨[⟨"A", [("<", "2.0")]⟩, ⟨"B", [(">=", "3.0")]⟩]⟩).2.reqs =
      [⟨"B", [(">=", "3.0")]⟩] := by
  have h := c3_mergeInto_spec ⟨[⟨"A", [(">=", "1.0")]⟩]⟩
    ⟨[⟨"A", [("<", "2.0")]⟩, ⟨"B", [(">=", "3.0")]⟩]⟩ (by decide)
  exact ⟨by decide, h.1.trans (by decide), h.2.trans (by decide)⟩

/-- C9: `Requirement.merge` keeps the receiver's name, replaces only
its version constraint with the intersection, and never consults the
argument's name — so it cannot fail on a name mismatch, and a
differently-named argument with the same constraint gives the same
result. -/
theorem c9_merge_frame (r1 r2 : Requirement) :
    (r1.merge r2).name = r1.name ∧
    (r1.merge r2).version = specAnd r1.version r2.version ∧
    (∀ r2' : Requirement, r2'.version = r2.version →
      r1.merge r2' = r1.merge r2) :=
  ⟨rfl, rfl, fun r2' h => by
    unfold Requirement.merge
    rw [h]⟩

/-- Witness for C9: merging an argument named `R` instead of `Q` (same
constraint) yields the same result; the name is discarded silently. -/
theorem c9_merge_frame_witness :
    ((⟨"R", [("<", "2.0")]⟩ : Requirement).version =
      (⟨"Q", [("<", "2.0")]⟩ : Requirement).version) ∧
    ((Requirement.mk "P" [(">=", "1.0")]).merge ⟨"R", [("<", "2.0")]⟩ =
      (Requirement.mk "P" [(">=", "1.0")]).merge ⟨"Q", [("<", "2.0")]⟩) :=
  ⟨rfl, (c9_merge_frame (Requirement.mk "P" [(">=", "1.0")])
    ⟨"Q", [("<", "2.0")]⟩).2.2 ⟨"R", [("<", "2.0")]⟩ rfl⟩

/-- C10: in every serialized requirement field (Requires,
Requires.private and Conflicts all render entries through
`_safe_str`), `==` is printed as `=`, every other operator verbatim as
`name op version`, and an unconstrained requirement as the bare name. -/
theorem c10_safe_str (n op ver : String) (env : Env) (r : ProcessResult) :
    SimpleRequirement.safeStr ⟨n, none⟩ = n ∧
    SimpleRequirement.safeStr ⟨n, some (op, ver)⟩ =
      n ++ " " ++ (if op = "==" then "=" else op) ++ " " ++ ver ∧
    (op = "==" →
      SimpleRequirement.safeStr ⟨n, some (op, ver)⟩ =
        n ++ " " ++ "=" ++ " " ++ ver) ∧
    (op ≠ "==" →
      SimpleRequirement.safeStr ⟨n, some (op, ver)⟩ =
        n ++ " " ++ op ++ " " ++ ver) ∧
    writeOutput env r =
      String.join (env.installDirs.map fun p => writeVariable p.1 p.2) ++ "\n" ++
      writeFieldStr "Name" r.desc_name ++
      writeFieldStr "Description" (some r.desc) ++
      writeFieldStr "URL" r.url ++
      writeFieldStr "Version" r.version ++
      writeFieldList "Requires" ", " (r.requires.map SimpleRequirement.safeStr) ++
      writeFieldList "Requires.private" ", "
        (r.requires_private.map SimpleRequirement.safeStr) ++
      writeFieldList "Conflicts" ", " (r.conflicts.map SimpleRequirement.safeStr) ++
      writeFieldList "Cflags" " " (cflagsOf (r.includes.map installify) ++ r.cflags) ++
      writeFieldList "Libs" " " (ldlibsOf (r.libs.map installify) ++ r.ldflags) ++
      writeFieldList "Libs.private" " "
        (ldlibsOf (r.libs_private.map installify) ++ r.ldflags_private) := by
  refine ⟨rfl, rfl, ?_, ?_, rfl⟩
  · intro h
    simp [SimpleRequirement.safeStr, h]
  · intro h
    simp [SimpleRequirement.safeStr, h]

/-- Witness for C10 at concrete entries: `== → =`, `>=` verbatim, bare
name when unconstrained. -/
theorem c10_safe_str_witness :
    SimpleRequirement.safeStr ⟨"zlib", some ("==", "1.2")⟩ = "zlib = 1.2" ∧
    SimpleRequirement.safeStr ⟨"zlib", some (">=", "1.2")⟩ = "zlib >= 1.2" ∧
    SimpleRequirement.safeStr ⟨"zlib", none⟩ = "zlib" := by
  have h := c10_safe_str "zlib" "==" "1.2" ⟨[]⟩
    ⟨none, none, "", none, none, [], [], [], [], [], [], [], [], [], []⟩
  have h2 := c10_safe_str "zlib" ">=" "1.2" ⟨[]⟩
    ⟨none, none, "", none, none, [], [], [], [], [], [], [], [], [], []⟩
  exact ⟨(h.2.2.1 rfl).trans (by decide),
    (h2.2.2.2.1 (by decide)).trans (by decide), h.1⟩

/-- C4: `Requirement.split(single)`: an empty simplified constraint
yields one unconstrained `SimpleRequirement`, otherwise one per
simplified comparison; with `single` set and more than one comparison
it fails with the constraint error naming the package and constraint.
`RequirementSet.split(single=True)` hence succeeds on `{(P,"!=1.5")}`
and fails on `(P,">=1.0")` merged with `(P,"!=1.5")`. -/
theorem c4_split_spec (r : Requirement) (single : Bool) :
    (simplify_specifiers r.version = [] →
      r.split single = .ok [⟨r.name, none⟩]) ∧
    (single = true → 1 < (simplify_specifiers r.version).length →
      r.split single = .error (.constraintError r.version r.name)) ∧
    (simplify_specifiers r.version ≠ [] →
      (single = true → (simplify_specifiers r.version).length = 1) →
      r.split single =
        .ok ((simplify_specifiers r.version).map fun i => ⟨r.name, some i⟩)) ∧
    ((⟨[⟨"P", [("!=", "1.5")]⟩]⟩ : RequirementSet).split true =
      .ok [⟨"P", some ("!=", "1.5")⟩]) ∧
    (((⟨[⟨"P", [(">=", "1.0")]⟩]⟩ : RequirementSet).add
        ⟨"P", [("!=", "1.5")]⟩).split true =
      .error (.constraintError [(">=", "1.0"), ("!=", "1.5")] "P")) := by
  refine ⟨?_, ?_, ?_, by decide, by decide⟩
  · intro h
    simp only [Requirement.split]
    rw [h]
    simp
  · intro hs hlen
    simp only [Requirement.split]
    have h0 : ¬ (simplify_specifiers r.version).length = 0 := by omega
    rw [if_neg h0, if_pos ⟨hs, hlen⟩]
  · intro hne hsingle
    simp only [Requirement.split]
    have h0 : ¬ (simplify_specifiers r.version).length = 0 := by
      intro h
      exact hne (List.length_eq_zero.mp h)
    rw [if_neg h0, if_neg ?_]
    rintro ⟨h1, h2⟩
    have := hsingle h1
    omega

/-- Witness for C4: a single `!=` comparison splits into exactly one
constrained `SimpleRequirement`. -/
theorem c4_split_spec_witness :
    simplify_specifiers [("!=", "1.5")] ≠ [] ∧
    Requirement.split ⟨"P", [("!=", "1.5")]⟩ true =
      .ok [⟨"P", some ("!=", "1.5")⟩] := by
  refine ⟨by decide, ?_⟩
  have h := (c4_split_spec ⟨"P", [("!=", "1.5")]⟩ true).2.2.1
    (by decide) (fun _ => by decide)
  exact h.trans (by decide)

/-- C5: `_filter_packages` partitions its input into pkg-config-style
requirements (bare names, `(name, specifier)` pairs and resolved
pkg-config packages, merged by name through `add`) and the system
package handles deduplicated in first-seen order; any other input
shape fails with the unsupported-type error. -/
theorem c5_filterPackages_spec (items : List PackageRef) :
    ((∀ i ∈ items, i.isUnsupported = false) →
      filterPackages items =
        .ok ((items.filterMap refToReq).foldl RequirementSet.add ⟨[]⟩,
          uniques (items.filterMap refToSystem))) ∧
    ((∃ i ∈ items, i.isUnsupported = true) →
      ∃ t, filterPackages items = .error (.unsupportedType t)) ∧
    (filterPackages [.str "zlib", .pair "zlib" [(">=", "1.2")]] =
      .ok (⟨[⟨"zlib", [(">=", "1.2")]⟩]⟩, [])) := by
  refine ⟨?_, ?_, by decide⟩
  · intro h
    rw [filterPackages, filterPackagesAux_closed items ⟨[]⟩ [] h]
    rfl
  · intro h
    exact filterPackagesAux_error ⟨[]⟩ [] h

/-- C6: for every descriptor the resolver accepts, after
`requires_private.update(auto_requires)` followed by
`requires.merge_into(requires_private)` no package name appears in both
the resolved public requires list and the resolved private one: a
public requirement absorbs a matching auto-discovered private one,
which is removed from the private set. -/
theorem c6_requires_disjoint (g : BuildGraph) (d : PkgConfigInfo)
    (r : ProcessResult) (d' : PkgConfigInfo)
    (h : processInputs g d = .ok (r, d')) :
    ∀ x ∈ r.requires, ∀ y ∈ r.requires_private, x.name ≠ y.name := by
  simp only [processInputs, bind, Except.bind, pure, Except.pure] at h
  split at h
  case h_1 => exact Except.noConfusion h
  case h_2 =>
    rename_i p heq
    split at h
    case h_1 => exact Except.noConfusion h
    case h_2 =>
      rename_i xs hsplit1
      split at h
      case h_1 => exact Except.noConfusion h
      case h_2 =>
        rename_i ys hsplit2
        split at h
        case h_1 => exact Except.noConfusion h
        case h_2 =>
          rename_i zs hsplit3
          split at h
          case h_1 => exact Except.noConfusion h
          case h_2 =>
            rename_i lp hpriv
            rw [Except.ok.injEq, Prod.mk.injEq] at h
            obtain ⟨hr, hd⟩ := h
            subst hr
            intro x hx y hy hne
            have hxn := splitNamesSubset hsplit1 x hx
            have hyn := splitNamesSubset hsplit2 y hy
            rw [hne] at hxn
            exact mergeInto_disjoint_names _ _ y.name hxn hyn

/-- Witness for C6: a descriptor with one public requirement `pub` and
one private requirement `priv` resolves, and the two resolved names
differ. -/
theorem c6_requires_disjoint_witness :
    processInputs ⟨fun _ => none, fun _ => []⟩
        { requires := some (⟨[⟨"pub", []⟩]⟩, []),
          requires_private := some (⟨[⟨"priv", []⟩]⟩, []) } =
      .ok ({ name := none, desc_name := none, desc := "None library",
             url := none, version := none,
             requires := [⟨"pub", none⟩],
             requires_private := [⟨"priv", none⟩],
             conflicts := [], includes := [], libs := [],
             libs_private := [], extra_fields := [], cflags := [],
             ldflags := [], ldflags_private := [] },
           { requires := some (⟨[⟨"pub", []⟩]⟩, []),
             requires_private := some (⟨[⟨"priv", []⟩]⟩, []) }) ∧
    (⟨"pub", none⟩ : SimpleRequirement).name ≠
      (⟨"priv", none⟩ : SimpleRequirement).name :=
  ⟨by decide,
    c6_requires_disjoint ⟨fun _ => none, fun _ => []⟩
      { requires := some (⟨[⟨"pub", []⟩]⟩, []),
        requires_private := some (⟨[⟨"priv", []⟩]⟩, []) }
      { name := none, desc_name := none, desc := "None library",
        url := none, version := none,
        requires := [⟨"pub", none⟩],
        requires_private := [⟨"priv", none⟩],
        conflicts := [], includes := [], libs := [],
        libs_private := [], extra_fields := [], cflags := [],
        ldflags := [], ldflags_private := [] }
      { requires := some (⟨[⟨"pub", []⟩]⟩, []),
        requires_private := some (⟨[⟨"priv", []⟩]⟩, []) }
      (by decide) ⟨"pub", none⟩ (by decide) ⟨"priv", none⟩ (by decide)⟩

/-- Witness for C5: a mixed list with a repeated system package and a
repeated requirement name resolves to one merged requirement and a
deduplicated system list. -/
theorem c5_filterPackages_spec_witness :
    (∀ i ∈ ([.str "zlib", .system ⟨"S", []⟩, .pair "zlib" [(">=", "1.2")],
        .system ⟨"S", []⟩] : List PackageRef), i.isUnsupported = false) ∧
    filterPackages [.str "zlib", .system ⟨"S", []⟩,
        .pair "zlib" [(">=", "1.2")], .system ⟨"S", []⟩] =
      .ok (⟨[⟨"zlib", [(">=", "1.2")]⟩]⟩, [⟨"S", []⟩]) := by
  refine ⟨by decide, ?_⟩
  have h := (c5_filterPackages_spec [.str "zlib", .system ⟨"S", []⟩,
    .pair "zlib" [(">=", "1.2")], .system ⟨"S", []⟩]).1 (by decide)
  exact h.trans (by decide)

end PkgConfig
